import Mathlib

/-!  Verification development for the we-engine simulation core (`wineng.hpp`):
     the generational-handle entity registry, the sparse/dense component pools,
     the chunked procedurally-generated tile world, the axis-separated tile
     physics resolver, and the flood-fill tile light map.

     Modelling conventions: the C++ machine integers `u16`/`u32` are modelled
     as `Nat` with explicit `% 65536` / `% 4294967296` where wrap-around can
     occur; `f32` quantities inside the physics resolver are modelled over `ℚ`
     (the claims under study concern control flow and exact pushes, not float
     rounding); `std::sin` is modelled by an arbitrary fixed function
     `ℚ → ℚ`, which every statement about the terrain generator quantifies
     over.  `std::vector` is a `List` (push_back = append at the tail,
     `back`/`pop_back` = `getLast?`/`dropLast`).  The two parallel vectors
     `dense_idx`/`dense_val` of a pool, which the source mutates strictly in
     lockstep, are modelled as a single list of pairs.  Vector indexing
     `v[i]` is modelled by the total lookups `look?`/`lookD` below. -/

namespace WinEng

/-! ### List lookup kit -/

/-- `l[i]` as an `Option`, standing for C++ `std::vector` indexing. -/
def look? {α : Type} : List α → Nat → Option α
  | [], _ => none
  | a :: _, 0 => some a
  | _ :: t, i + 1 => look? t i

/-- `l[i]` with a default (used where the source guarantees the index is in
    range). -/
def lookD {α : Type} (l : List α) (i : Nat) (d : α) : α := (look? l i).getD d

theorem look?_nil {α : Type} (i : Nat) : look? ([] : List α) i = none := by
  cases i <;> rfl

theorem look?_eq_none_of_le {α : Type} (l : List α) (i : Nat) (h : l.length ≤ i) :
    look? l i = none := by
  induction l generalizing i with
  | nil => exact look?_nil i
  | cons a t ih =>
    cases i with
    | zero => simp at h
    | succ j => exact ih j (by simpa using h)

theorem look?_isSome_of_lt {α : Type} (l : List α) (i : Nat) (h : i < l.length) :
    ∃ a, look? l i = some a := by
  induction l generalizing i with
  | nil => simp at h
  | cons a t ih =>
    cases i with
    | zero => exact ⟨a, rfl⟩
    | succ j => exact ih j (by simpa using h)

theorem look?_set_self {α : Type} (l : List α) (i : Nat) (v : α) (h : i < l.length) :
    look? (l.set i v) i = some v := by
  induction l generalizing i with
  | nil => simp at h
  | cons a t ih =>
    cases i with
    | zero => rfl
    | succ j => exact ih j (by simpa using h)

theorem look?_set_ne {α : Type} (l : List α) (i j : Nat) (v : α) (h : i ≠ j) :
    look? (l.set i v) j = look? l j := by
  induction l generalizing i j with
  | nil => simp [List.set]
  | cons a t ih =>
    cases i with
    | zero =>
      cases j with
      | zero => exact absurd rfl h
      | succ k => rfl
    | succ i' =>
      cases j with
      | zero => rfl
      | succ k => exact ih i' k (by omega)

theorem look?_append_left {α : Type} (l l' : List α) (i : Nat) (h : i < l.length) :
    look? (l ++ l') i = look? l i := by
  induction l generalizing i with
  | nil => simp at h
  | cons a t ih =>
    cases i with
    | zero => rfl
    | succ j => exact ih j (by simpa using h)

theorem look?_append_right {α : Type} (l l' : List α) (i : Nat) (h : l.length ≤ i) :
    look? (l ++ l') i = look? l' (i - l.length) := by
  induction l generalizing i with
  | nil => simp
  | cons a t ih =>
    cases i with
    | zero => simp at h
    | succ j => simpa using ih j (by simpa using h)

theorem look?_replicate {α : Type} (n i : Nat) (d : α) :
    look? (List.replicate n d) i = if i < n then some d else none := by
  induction n generalizing i with
  | zero => simp [look?_nil]
  | succ m ih =>
    cases i with
    | zero => simp [List.replicate, look?]
    | succ j =>
      rw [List.replicate, look?, ih j]
      by_cases h : j < m
      · simp [h, Nat.succ_lt_succ h]
      · have h2 : ¬ (j + 1 < m + 1) := by omega
        simp [h, h2]

theorem lookD_set_self {α : Type} (l : List α) (i : Nat) (v d : α) (h : i < l.length) :
    lookD (l.set i v) i d = v := by
  simp [lookD, look?_set_self _ _ _ h]

theorem lookD_set_ne {α : Type} (l : List α) (i j : Nat) (v d : α) (h : i ≠ j) :
    lookD (l.set i v) j d = lookD l j d := by
  simp [lookD, look?_set_ne _ _ _ _ h]

theorem lookD_append_left {α : Type} (l l' : List α) (i : Nat) (d : α) (h : i < l.length) :
    lookD (l ++ l') i d = lookD l i d := by
  simp [lookD, look?_append_left _ _ _ h]

theorem lookD_append_single {α : Type} (l : List α) (a : α) (i : Nat) (d : α) :
    lookD (l ++ [a]) i d =
      if i < l.length then lookD l i d else if i = l.length then a else d := by
  by_cases h : i < l.length
  · simp [h, lookD_append_left]
  · rw [lookD, look?_append_right _ _ _ (by omega)]
    by_cases h2 : i = l.length
    · subst h2; simp [look?, lookD]
    · have h3 : 1 ≤ i - l.length := by omega
      rw [look?_eq_none_of_le _ _ (by simpa using h3)]
      simp [h, h2, Option.getD]

theorem lookD_padded {α : Type} (l : List α) (n i : Nat) (d : α) :
    lookD (l ++ List.replicate n d) i d = lookD l i d := by
  by_cases h : i < l.length
  · exact lookD_append_left _ _ _ _ h
  · rw [lookD, look?_append_right _ _ _ (by omega), look?_replicate]
    rw [lookD, look?_eq_none_of_le _ _ (by omega)]
    split <;> simp

/-! ### Entity handles and the registry -/

/-- `using Entity = u32; // packed: [gen:16][idx:16]`. -/
abbrev Entity := Nat

/-- `static inline u16 ent_idx(Entity e){ return (u16)(e & 0xFFFFu); }` -/
def ent_idx (e : Entity) : Nat := e % 65536

/-- `static inline u16 ent_gen(Entity e){ return (u16)(e >> 16); }`
    (`e >> 16` on a `u32` is division by `2^16`; the result is cast to `u16`). -/
def ent_gen (e : Entity) : Nat := (e / 65536) % 65536

/-- `static inline Entity make_ent(u16 idx,u16 gen){ return (Entity)(((u32)gen<<16) | (u32)idx); }`
    The arguments are `u16`, modelled by masking; `|` of the disjoint bit
    ranges `gen<<16` and `idx` is addition. -/
def make_ent (idx g : Nat) : Entity := (g % 65536) * 65536 + idx % 65536

theorem ent_idx_make (idx g : Nat) : ent_idx (make_ent idx g) = idx % 65536 := by
  unfold ent_idx make_ent; omega

theorem ent_gen_make (idx g : Nat) : ent_gen (make_ent idx g) = g % 65536 := by
  unfold ent_gen make_ent; omega

/-- `struct Registry { std::vector<u16> gen; std::vector<u16> free_list; }` -/
structure Registry where
  gen : List Nat
  free_list : List Nat
deriving DecidableEq

/-- `Entity create()` — reuse the back of the free list, else append a fresh
    slot with generation 1. -/
def Registry.create (r : Registry) : Entity × Registry :=
  match r.free_list.getLast? with
  | some idx =>
      (make_ent idx (lookD r.gen idx 0), ⟨r.gen, r.free_list.dropLast⟩)
  | none =>
      let idx := r.gen.length % 65536
      let g' := r.gen ++ [1]
      (make_ent idx (lookD g' idx 0), ⟨g', r.free_list⟩)

/-- `bool alive(Entity e) const` — index in range and stored generation equal
    to the handle's generation. -/
def Registry.alive (r : Registry) (e : Entity) : Bool :=
  decide (ent_idx e < r.gen.length) && (lookD r.gen (ent_idx e) 0 == ent_gen e)

/-- `void destroy(Entity e)` — no-op when dead, else bump the slot's `u16`
    generation and push the index on the free list. -/
def Registry.destroy (r : Registry) (e : Entity) : Registry :=
  let idx := ent_idx e
  if idx ≥ r.gen.length then r
  else if lookD r.gen idx 0 ≠ ent_gen e then r
  else ⟨r.gen.set idx ((lookD r.gen idx 0 + 1) % 65536), r.free_list ++ [idx]⟩

/-- A create/destroy operation performed on a registry (execution is
    deterministic, so any interactively chosen sequence of calls is captured
    by some fixed list of these). -/
inductive RegOp where
  | create : RegOp
  | destroy : Entity → RegOp
deriving DecidableEq

def Registry.applyOp (r : Registry) : RegOp → Registry
  | .create => (r.create).2
  | .destroy e => r.destroy e

def Registry.exec (r : Registry) : List RegOp → Registry
  | [] => r
  | op :: ops => (r.applyOp op).exec ops

/-! ### Sparse/dense component pools -/

/-- `template<typename T> struct Pool` — sparse/dense component storage.
    `dense` pairs the parallel vectors `dense_idx` and `dense_val`;
    `sparse` maps entity index to dense position, `-1` if none. -/
structure Pool (T : Type) where
  dense : List (Nat × T)
  sparse : List Int

/-- `void ensure_sparse(size_t n)` — grow `sparse` to length `n` with `-1`. -/
def Pool.ensure_sparse {T : Type} (p : Pool T) (n : Nat) : Pool T :=
  if p.sparse.length < n then
    ⟨p.dense, p.sparse ++ List.replicate (n - p.sparse.length) (-1)⟩
  else p

/-- The entity index stored at dense position `i` (`dense_idx[i]`). -/
def denseIdxAt {T : Type} (p : Pool T) (i : Nat) : Nat :=
  ((look? p.dense i).map Prod.fst).getD 0

/-- `bool has(Entity e) const` — bounds check on `sparse`, then the
    sparse/dense consistency check `di>=0 && di<size && dense_idx[di]==idx`. -/
def Pool.has {T : Type} (p : Pool T) (e : Entity) : Bool :=
  let idx := ent_idx e
  if idx < p.sparse.length then
    let di := lookD p.sparse idx (-1)
    decide (0 ≤ di) && decide (di < (p.dense.length : Int)) &&
      (((look? p.dense di.toNat).map Prod.fst) == some idx)
  else false

/-- `T* get(Entity e)` — same checks as `has`, returning the dense value. -/
def Pool.get {T : Type} (p : Pool T) (e : Entity) : Option T :=
  let idx := ent_idx e
  if idx < p.sparse.length then
    let di := lookD p.sparse idx (-1)
    if di < 0 then none
    else if (p.dense.length : Int) ≤ di then none
    else match look? p.dense di.toNat with
      | some pr => if pr.1 = idx then some pr.2 else none
      | none => none
  else none

/-- `T& add(Entity e, const T& v)` — upsert: overwrite the existing dense slot
    when the consistency check passes, else append and point `sparse` at it. -/
def Pool.add {T : Type} (p : Pool T) (e : Entity) (v : T) : Pool T :=
  let p1 := p.ensure_sparse (ent_idx e + 1)
  let idx := ent_idx e
  let di := lookD p1.sparse idx (-1)
  if 0 ≤ di ∧ di.toNat < p1.dense.length ∧
      ((look? p1.dense di.toNat).map Prod.fst) = some idx then
    ⟨p1.dense.set di.toNat (idx, v), p1.sparse⟩
  else
    ⟨p1.dense ++ [(idx, v)], p1.sparse.set idx ((p1.dense.length : Int))⟩

/-- `void remove(Entity e)` — swap-remove: copy the last dense element into
    the removed slot, fix the moved entity's sparse entry, pop the back, and
    clear the removed entity's sparse entry.  (When `sparse` and `dense` are
    inconsistent — unreachable from empty through `add`/`remove` — the C++
    code indexes out of bounds; the model makes those paths no-ops.) -/
def Pool.remove {T : Type} (p : Pool T) (e : Entity) : Pool T :=
  let idx := ent_idx e
  if idx < p.sparse.length then
    let di := lookD p.sparse idx (-1)
    if di < 0 then p
    else
      let last := p.dense.length - 1
      match look? p.dense last with
      | none => p
      | some lastPair =>
        let dense1 := if di.toNat ≠ last then p.dense.set di.toNat lastPair else p.dense
        let sparse1 := if di.toNat ≠ last then p.sparse.set lastPair.1 di else p.sparse
        ⟨dense1.dropLast, sparse1.set idx (-1)⟩
  else p

/-- `size_t size() const { return dense_idx.size(); }` -/
def Pool.size {T : Type} (p : Pool T) : Nat := p.dense.length

/-- `Entity entity_at(size_t i, const Registry& r) const` — rebuild a handle
    from the stored index and the registry's *current* generation. -/
def Pool.entity_at {T : Type} (p : Pool T) (i : Nat) (r : Registry) : Entity :=
  let idx := denseIdxAt p i
  make_ent idx (lookD r.gen idx 0)

/-- Writing through the pointer returned by `get` (the source mutates
    `*pool.get(e)` in place); a no-op exactly when `get` returns null. -/
def Pool.modify {T : Type} (p : Pool T) (e : Entity) (f : T → T) : Pool T :=
  let idx := ent_idx e
  if idx < p.sparse.length then
    let di := lookD p.sparse idx (-1)
    if di < 0 then p
    else if (p.dense.length : Int) ≤ di then p
    else match look? p.dense di.toNat with
      | some pr => if pr.1 = idx then ⟨p.dense.set di.toNat (pr.1, f pr.2), p.sparse⟩ else p
      | none => p
  else p

/-! ### C4: permanence of handle death -/

/-- `u16` well-formedness of the generation array. -/
def Registry.wf (r : Registry) : Prop := ∀ i, lookD r.gen i 0 < 65536

theorem create_gen_cases (r : Registry) :
    (r.create).2.gen = r.gen ∨ (r.create).2.gen = r.gen ++ [1] := by
  unfold Registry.create
  cases r.free_list.getLast? <;> simp

theorem destroy_gen_cases (r : Registry) (e : Entity) :
    (r.destroy e).gen = r.gen ∨
    (ent_idx e < r.gen.length ∧
     (r.destroy e).gen = r.gen.set (ent_idx e) ((lookD r.gen (ent_idx e) 0 + 1) % 65536)) := by
  unfold Registry.destroy
  by_cases h1 : ent_idx e ≥ r.gen.length
  · left; simp [h1]
  · by_cases h2 : lookD r.gen (ent_idx e) 0 ≠ ent_gen e
    · left; simp [h1, h2]
    · right; exact ⟨by omega, by simp [h1, h2]⟩

theorem drift_same (r r' : Registry) (idx : Nat) (h : idx < r.gen.length) (hwf : r.wf)
    (hgen : r'.gen = r.gen) :
    ∃ j, j ≤ 1 ∧ lookD r'.gen idx 0 = (lookD r.gen idx 0 + j) % 65536 ∧
      idx < r'.gen.length ∧ r'.wf := by
  have hg := hwf idx
  refine ⟨0, by omega, by rw [hgen]; omega, by rw [hgen]; exact h, ?_⟩
  intro i
  show lookD r'.gen i 0 < 65536
  rw [hgen]; exact hwf i

theorem drift_append (r r' : Registry) (idx : Nat) (h : idx < r.gen.length) (hwf : r.wf)
    (hgen : r'.gen = r.gen ++ [1]) :
    ∃ j, j ≤ 1 ∧ lookD r'.gen idx 0 = (lookD r.gen idx 0 + j) % 65536 ∧
      idx < r'.gen.length ∧ r'.wf := by
  have hg := hwf idx
  refine ⟨0, by omega, ?_, ?_, ?_⟩
  · rw [hgen, lookD_append_left _ _ _ _ h]; omega
  · rw [hgen]; simp; omega
  · intro i
    show lookD r'.gen i 0 < 65536
    rw [hgen, lookD_append_single]
    have := hwf i
    split
    · omega
    · split <;> omega

theorem drift_set (r r' : Registry) (e : Entity) (idx : Nat) (h : idx < r.gen.length)
    (hwf : r.wf) (hlt : ent_idx e < r.gen.length)
    (hgen : r'.gen = r.gen.set (ent_idx e) ((lookD r.gen (ent_idx e) 0 + 1) % 65536)) :
    ∃ j, j ≤ 1 ∧ lookD r'.gen idx 0 = (lookD r.gen idx 0 + j) % 65536 ∧
      idx < r'.gen.length ∧ r'.wf := by
  have hg := hwf idx
  have hwf' : r'.wf := by
    intro i
    show lookD r'.gen i 0 < 65536
    rw [hgen]
    by_cases h4 : ent_idx e = i
    · rw [h4, lookD_set_self _ _ _ _ (h4 ▸ hlt)]; omega
    · rw [lookD_set_ne _ _ _ _ _ h4]; exact hwf i
  by_cases h3 : ent_idx e = idx
  · refine ⟨1, by omega, ?_, by rw [hgen]; simpa using h, hwf'⟩
    rw [hgen, h3, lookD_set_self _ _ _ _ (h3 ▸ hlt)]
  · refine ⟨0, by omega, ?_, by rw [hgen]; simpa using h, hwf'⟩
    rw [hgen, lookD_set_ne _ _ _ _ _ h3]; omega

theorem applyOp_gen_drift (r : Registry) (op : RegOp) (idx : Nat)
    (h : idx < r.gen.length) (hwf : r.wf) :
    ∃ j, j ≤ 1 ∧ lookD (r.applyOp op).gen idx 0 = (lookD r.gen idx 0 + j) % 65536 ∧
      idx < (r.applyOp op).gen.length ∧ (r.applyOp op).wf := by
  cases op with
  | create =>
    have key : (r.applyOp RegOp.create).gen = r.gen ∨
        (r.applyOp RegOp.create).gen = r.gen ++ [1] := create_gen_cases r
    rcases key with hc | hc
    · exact drift_same r _ idx h hwf hc
    · exact drift_append r _ idx h hwf hc
  | destroy e =>
    have key : (r.applyOp (RegOp.destroy e)).gen = r.gen ∨
        (ent_idx e < r.gen.length ∧
         (r.applyOp (RegOp.destroy e)).gen =
           r.gen.set (ent_idx e) ((lookD r.gen (ent_idx e) 0 + 1) % 65536)) :=
      destroy_gen_cases r e
    rcases key with hc | ⟨hlt, hc⟩
    · exact drift_same r _ idx h hwf hc
    · exact drift_set r _ e idx h hwf hlt hc

theorem exec_gen_drift (ops : List RegOp) :
    ∀ (r : Registry) (idx : Nat), idx < r.gen.length → r.wf →
    ∃ k, k ≤ ops.length ∧
      lookD (r.exec ops).gen idx 0 = (lookD r.gen idx 0 + k) % 65536 ∧
      idx < (r.exec ops).gen.length ∧ (r.exec ops).wf := by
  induction ops with
  | nil =>
    intro r idx h hwf
    have := hwf idx
    exact ⟨0, by simp, by simp [Registry.exec]; omega, by simpa [Registry.exec], by simpa [Registry.exec]⟩
  | cons op ops ih =>
    intro r idx h hwf
    obtain ⟨j, hj, hgen, hlen, hwf'⟩ := applyOp_gen_drift r op idx h hwf
    obtain ⟨k, hk, hgen', hlen', hwf''⟩ := ih (r.applyOp op) idx hlen hwf'
    refine ⟨j + k, by simp; omega, ?_, hlen', hwf''⟩
    show lookD ((r.applyOp op).exec ops).gen idx 0 = _
    rw [hgen', hgen]
    omega

/-- **C4** (amended): after `destroy(h)` succeeds on a registry with `u16`
    generation entries, `alive(h)` is false and remains false after any
    further sequence of at most 65534 create/destroy operations — each
    operation bumps the slot's `u16` generation at most once, and the counter
    returns to `h`'s generation only after 65536 bumps. -/
theorem destroyed_handle_stays_dead (r : Registry) (e : Entity)
    (hwf : r.wf) (halive : r.alive e = true)
    (ops : List RegOp) (hlen : ops.length ≤ 65534) :
    ((r.destroy e).exec ops).alive e = false := by
  have halive' : ent_idx e < r.gen.length ∧ lookD r.gen (ent_idx e) 0 = ent_gen e := by
    unfold Registry.alive at halive
    simp only [Bool.and_eq_true, decide_eq_true_eq, beq_iff_eq] at halive
    exact halive
  obtain ⟨hlt, hgeq⟩ := halive'
  have hgbound : ent_gen e < 65536 := by unfold ent_gen; omega
  have hd : (r.destroy e).gen =
      r.gen.set (ent_idx e) ((lookD r.gen (ent_idx e) 0 + 1) % 65536) := by
    unfold Registry.destroy
    have h1 : ¬ ent_idx e ≥ r.gen.length := by omega
    simp [h1, hgeq]
  have hlen' : ent_idx e < (r.destroy e).gen.length := by rw [hd]; simpa using hlt
  have hwf' : (r.destroy e).wf := by
    intro i
    show lookD (r.destroy e).gen i 0 < 65536
    rw [hd]
    by_cases h4 : ent_idx e = i
    · rw [h4, lookD_set_self _ _ _ _ (h4 ▸ hlt)]; omega
    · rw [lookD_set_ne _ _ _ _ _ h4]; exact hwf i
  have hval : lookD (r.destroy e).gen (ent_idx e) 0 = (ent_gen e + 1) % 65536 := by
    rw [hd, lookD_set_self _ _ _ _ hlt, hgeq]
  obtain ⟨k, hk, hfin, hflen, _⟩ := exec_gen_drift ops (r.destroy e) (ent_idx e) hlen' hwf'
  unfold Registry.alive
  rw [hfin, hval]
  simp only [Bool.and_eq_false_iff, beq_eq_false_iff_ne, ne_eq, decide_eq_false_iff_not, not_lt]
  right
  omega

theorem destroyed_handle_stays_dead_witness :
    ((⟨[1], []⟩ : Registry).alive (make_ent 0 1) = true) ∧
    ((((⟨[1], []⟩ : Registry).destroy (make_ent 0 1)).exec
      [RegOp.create, RegOp.create, RegOp.destroy (make_ent 0 2)]).alive (make_ent 0 1) = false) := by
  refine ⟨by decide, destroyed_handle_stays_dead ⟨[1], []⟩ (make_ent 0 1) ?_ (by decide) _ (by decide)⟩
  intro i
  cases i with
  | zero => decide
  | succ j => rw [lookD, look?, look?_nil]; decide

/-- The further operation sequence that wraps a slot's `u16` generation:
    starting at current generation `g`, each pair creates (reusing the slot,
    handle generation = current) and immediately destroys that handle. -/
def mkOps : Nat → Nat → List RegOp
  | _, 0 => []
  | g, n + 1 => RegOp.create :: RegOp.destroy (make_ent 0 g) :: mkOps ((g + 1) % 65536) n

theorem cd_run : ∀ (n g : Nat), g < 65536 →
    Registry.exec ⟨[g], [0]⟩ (mkOps g n) = ⟨[(g + n) % 65536], [0]⟩ := by
  intro n
  induction n with
  | zero =>
    intro g hg
    show (⟨[g], [0]⟩ : Registry) = _
    rw [Nat.add_zero, Nat.mod_eq_of_lt hg]
  | succ m ih =>
    intro g hg
    have h1 : Registry.applyOp ⟨[g], [0]⟩ RegOp.create = ⟨[g], []⟩ := by
      show (Registry.create ⟨[g], [0]⟩).2 = _
      unfold Registry.create
      rfl
    have h2 : Registry.applyOp ⟨[g], []⟩ (RegOp.destroy (make_ent 0 g)) =
        ⟨[(g + 1) % 65536], [0]⟩ := by
      show Registry.destroy ⟨[g], []⟩ (make_ent 0 g) = _
      unfold Registry.destroy
      have hidx : ent_idx (make_ent 0 g) = 0 := by rw [ent_idx_make]
      have hgen : ent_gen (make_ent 0 g) = g := by rw [ent_gen_make, Nat.mod_eq_of_lt hg]
      have hlook : lookD ([g] : List Nat) 0 0 = g := rfl
      rw [hidx, hgen]
      simp [hlook]
    show Registry.exec (Registry.applyOp (Registry.applyOp ⟨[g], [0]⟩ RegOp.create)
      (RegOp.destroy (make_ent 0 g))) (mkOps ((g + 1) % 65536) m) = _
    rw [h1, h2, ih ((g + 1) % 65536) (by omega)]
    have : ((g + 1) % 65536 + m) % 65536 = (g + (m + 1)) % 65536 := by omega
    rw [this]

/-- **C4** (counterexample to the claim as stated): the handle `(idx 0, gen 1)`
    of the first entity, destroyed successfully, becomes alive again after a
    further sequence of 131070 create/destroy operations — the slot's `u16`
    generation wraps around.  So "remains false after any further sequence"
    is false. -/
theorem destroyed_handle_revives :
    (Registry.create ⟨[], []⟩ = (make_ent 0 1, ⟨[1], []⟩)) ∧
    (Registry.destroy ⟨[1], []⟩ (make_ent 0 1) = ⟨[2], [0]⟩) ∧
    (Registry.alive ⟨[2], [0]⟩ (make_ent 0 1) = false) ∧
    (Registry.alive (Registry.exec ⟨[2], [0]⟩ (mkOps 2 65535)) (make_ent 0 1) = true) := by
  refine ⟨by decide, by decide, by decide, ?_⟩
  rw [cd_run 65535 2 (by omega)]
  decide

/-- **C1** (amended): `has`/`get` are keyed by the handle's slot index alone —
    the sparse/dense consistency check rejects only handles whose index lacks
    a consistent dense entry; two handles with equal index (a stale handle and
    the recreated entity's handle) are indistinguishable to a pool. -/
theorem pool_query_index_keyed {T : Type} (p : Pool T) (e e' : Entity)
    (h : ent_idx e = ent_idx e') :
    p.has e = p.has e' ∧ p.get e = p.get e' := by
  unfold Pool.has Pool.get
  rw [h]
  exact ⟨rfl, rfl⟩

theorem pool_query_index_keyed_witness :
    ent_idx (make_ent 0 1) = ent_idx (make_ent 0 2) ∧
    (((⟨[(0, 42)], [Int.ofNat 0]⟩ : Pool Nat).has (make_ent 0 1) =
        (⟨[(0, 42)], [Int.ofNat 0]⟩ : Pool Nat).has (make_ent 0 2)) ∧
      ((⟨[(0, 42)], [Int.ofNat 0]⟩ : Pool Nat).get (make_ent 0 1) =
        (⟨[(0, 42)], [Int.ofNat 0]⟩ : Pool Nat).get (make_ent 0 2))) :=
  ⟨by decide, pool_query_index_keyed _ _ _ (by decide)⟩

/-- **C1** (counterexample to the claim as stated): create `E`, give it a
    component, destroy `E`, create `E'` which reuses slot 0 — querying the
    store with `E`'s original handle still answers `has = true` and returns
    the leftover value, not "absent": the pool never consults generations. -/
theorem stale_handle_reads_leftover :
    (Registry.create ⟨[], []⟩ = (make_ent 0 1, ⟨[1], []⟩)) ∧
    (Registry.destroy ⟨[1], []⟩ (make_ent 0 1) = ⟨[2], [0]⟩) ∧
    (Registry.create ⟨[2], [0]⟩ = (make_ent 0 2, ⟨[2], []⟩)) ∧
    (ent_idx (make_ent 0 2) = ent_idx (make_ent 0 1)) ∧
    (Registry.alive ⟨[2], []⟩ (make_ent 0 1) = false) ∧
    (((⟨[], []⟩ : Pool Nat).add (make_ent 0 1) 42).has (make_ent 0 1) = true) ∧
    (((⟨[], []⟩ : Pool Nat).add (make_ent 0 1) 42).get (make_ent 0 1) = some 42) := by
  decide

/-- **C10**: a handle rebuilt by `entity_at` from a dense row whose stored
    slot index is inside the registry's generation array always passes
    `alive` — `entity_at` copies the *current* generation, so liveness
    filtering over dense iteration cannot reject leftover rows of destroyed
    entities. -/
theorem entity_at_always_alive {T : Type} (p : Pool T) (i : Nat) (r : Registry)
    (hidx : denseIdxAt p i < r.gen.length)
    (h16 : denseIdxAt p i < 65536)
    (hg : lookD r.gen (denseIdxAt p i) 0 < 65536) :
    r.alive (p.entity_at i r) = true := by
  unfold Pool.entity_at Registry.alive
  rw [ent_idx_make, ent_gen_make, Nat.mod_eq_of_lt h16, Nat.mod_eq_of_lt hg]
  simp [hidx]

theorem entity_at_always_alive_witness :
    (denseIdxAt (⟨[(0, 42)], [Int.ofNat 0]⟩ : Pool Nat) 0 < (⟨[2], [0]⟩ : Registry).gen.length ∧
     denseIdxAt (⟨[(0, 42)], [Int.ofNat 0]⟩ : Pool Nat) 0 < 65536 ∧
     lookD (⟨[2], [0]⟩ : Registry).gen (denseIdxAt (⟨[(0, 42)], [Int.ofNat 0]⟩ : Pool Nat) 0) 0 < 65536) ∧
    (⟨[2], [0]⟩ : Registry).alive
      ((⟨[(0, 42)], [Int.ofNat 0]⟩ : Pool Nat).entity_at 0 ⟨[2], [0]⟩) = true :=
  ⟨⟨by decide, by decide, by decide⟩,
    entity_at_always_alive _ 0 _ (by decide) (by decide) (by decide)⟩

/-! ### C6: sparse/dense consistency invariant -/

theorem lookD_default_of_le {α : Type} (l : List α) (i : Nat) (d : α) (h : l.length ≤ i) :
    lookD l i d = d := by
  rw [lookD, look?_eq_none_of_le _ _ h]; rfl

theorem look?_dropLast {α : Type} (l : List α) (i : Nat) (h : i + 1 < l.length) :
    look? l.dropLast i = look? l i := by
  induction l generalizing i with
  | nil => simp at h
  | cons a t ih =>
    cases t with
    | nil => simp at h
    | cons b t2 =>
      cases i with
      | zero => rfl
      | succ j =>
        show look? ((b :: t2).dropLast) j = look? (b :: t2) j
        exact ih j (by simpa using h)

/-- The internal well-formedness of a pool: every dense row's owner index
    points back at it through `sparse`, every non-absent sparse entry points
    at a dense row owning it, and `sparse` never outgrows the `u16` index
    space. -/
def Inv {T : Type} (p : Pool T) : Prop :=
  p.sparse.length ≤ 65536 ∧
  (∀ d, d < p.dense.length →
    denseIdxAt p d < p.sparse.length ∧
    lookD p.sparse (denseIdxAt p d) (-1) = (d : Int)) ∧
  (∀ i, i < p.sparse.length → lookD p.sparse i (-1) ≠ -1 →
    ∃ d, d < p.dense.length ∧ lookD p.sparse i (-1) = (d : Int) ∧ denseIdxAt p d = i)

theorem Inv_empty {T : Type} : Inv (⟨[], []⟩ : Pool T) := by
  refine ⟨by simp, ?_, ?_⟩
  · intro d hd; simp at hd
  · intro i hi; simp at hi

theorem ensure_dense {T : Type} (p : Pool T) (n : Nat) :
    (p.ensure_sparse n).dense = p.dense := by
  unfold Pool.ensure_sparse; split <;> rfl

theorem ensure_denseIdxAt {T : Type} (p : Pool T) (n d : Nat) :
    denseIdxAt (p.ensure_sparse n) d = denseIdxAt p d := by
  unfold denseIdxAt; rw [ensure_dense]

theorem ensure_lookD {T : Type} (p : Pool T) (n i : Nat) :
    lookD (p.ensure_sparse n).sparse i (-1) = lookD p.sparse i (-1) := by
  unfold Pool.ensure_sparse
  split
  · exact lookD_padded _ _ _ _
  · rfl

theorem ensure_length {T : Type} (p : Pool T) (n : Nat) :
    (p.ensure_sparse n).sparse.length = max p.sparse.length n := by
  unfold Pool.ensure_sparse
  split <;> simp <;> omega

theorem Inv_ensure {T : Type} (p : Pool T) (n : Nat) (hn : n ≤ 65536) (h : Inv p) :
    Inv (p.ensure_sparse n) := by
  obtain ⟨h1, h2, h3⟩ := h
  refine ⟨?_, ?_, ?_⟩
  · rw [ensure_length]; omega
  · intro d hd
    rw [ensure_dense] at hd
    rw [ensure_denseIdxAt, ensure_lookD, ensure_length]
    have := h2 d hd
    exact ⟨by omega, this.2⟩
  · intro i hi hne
    rw [ensure_lookD] at hne ⊢
    have hilen : i < p.sparse.length := by
      by_contra hcon
      exact hne (lookD_default_of_le _ _ _ (by omega))
    obtain ⟨d, hd, hdi, hf⟩ := h3 i hilen hne
    exact ⟨d, by rw [ensure_dense]; exact hd, hdi, by rw [ensure_denseIdxAt]; exact hf⟩

theorem Inv_add {T : Type} (p : Pool T) (e : Entity) (v : T) (h : Inv p) :
    Inv (p.add e v) := by
  have hidx16 : ent_idx e < 65536 := Nat.mod_lt _ (by norm_num)
  have hInv1 : Inv (p.ensure_sparse (ent_idx e + 1)) :=
    Inv_ensure p (ent_idx e + 1) (by omega) h
  generalize hq : p.ensure_sparse (ent_idx e + 1) = q at hInv1
  have hlen1 : ent_idx e < q.sparse.length := by
    rw [← hq, ensure_length]; omega
  obtain ⟨h1, h2, h3⟩ := hInv1
  show Inv (Pool.add p e v)
  unfold Pool.add
  rw [hq]
  dsimp only
  split
  case isTrue hcond =>
    -- overwrite branch: dense_idx[di] is already ent_idx e, so the owner map
    -- is untouched and the invariant transfers verbatim
    obtain ⟨hge, hlt, hfst⟩ := hcond
    refine ⟨h1, ?_, ?_⟩
    · intro d hd
      simp only [List.length_set] at hd
      have hfix : ∀ d', denseIdxAt
          (⟨q.dense.set (lookD q.sparse (ent_idx e) (-1)).toNat (ent_idx e, v), q.sparse⟩ : Pool T) d'
          = denseIdxAt q d' := by
        intro d'
        unfold denseIdxAt
        by_cases hdd : d' = (lookD q.sparse (ent_idx e) (-1)).toNat
        · subst hdd
          rw [look?_set_self _ _ _ hlt]
          cases hl : look? q.dense (lookD q.sparse (ent_idx e) (-1)).toNat with
          | none => rw [hl] at hfst; simp at hfst
          | some pr =>
            rw [hl] at hfst
            simp at hfst ⊢
            omega
        · rw [look?_set_ne _ _ _ _ (fun hx => hdd hx.symm)]
      rw [hfix]
      exact h2 d hd
    · intro i hi hne
      obtain ⟨d, hd, hdi, hf⟩ := h3 i hi hne
      refine ⟨d, by simpa using hd, hdi, ?_⟩
      unfold denseIdxAt at hf ⊢
      by_cases hdd : d = (lookD q.sparse (ent_idx e) (-1)).toNat
      · subst hdd
        rw [look?_set_self _ _ _ hlt]
        cases hl : look? q.dense (lookD q.sparse (ent_idx e) (-1)).toNat with
        | none => rw [hl] at hfst; simp at hfst
        | some pr =>
          rw [hl] at hf hfst
          simp at hf hfst ⊢
          omega
      · rw [look?_set_ne _ _ _ _ (fun hx => hdd hx.symm)]
        exact hf
  case isFalse hcond =>
    -- append branch: under the invariant the failed check means the sparse
    -- entry is absent
    have hdi_neg : lookD q.sparse (ent_idx e) (-1) = -1 := by
      by_contra hne
      obtain ⟨d, hd, hdi, hf⟩ := h3 _ hlen1 hne
      refine hcond ⟨by omega, by rw [hdi]; simpa using hd, ?_⟩
      rw [hdi]
      obtain ⟨pr, hpr⟩ := look?_isSome_of_lt q.dense d (by simpa using hd)
      unfold denseIdxAt at hf
      rw [hpr] at hf
      simp at hf
      simp [hpr, hf]
  -- goal: Inv ⟨q.dense ++ [(idx, v)], q.sparse.set idx n⟩
    refine ⟨by simpa using h1, ?_, ?_⟩
    · intro d hd
      simp only [List.length_append, List.length_cons, List.length_nil] at hd
      by_cases hlt : d < q.dense.length
      · have hfix : denseIdxAt (⟨q.dense ++ [(ent_idx e, v)],
            q.sparse.set (ent_idx e) ((q.dense.length : Int))⟩ : Pool T) d = denseIdxAt q d := by
          unfold denseIdxAt
          rw [look?_append_left _ _ _ hlt]
        rw [hfix]
        obtain ⟨hj1, hj2⟩ := h2 d hlt
        have hjne : denseIdxAt q d ≠ ent_idx e := by
          intro hx
          rw [hx, hdi_neg] at hj2
          omega
        refine ⟨by simpa using hj1, ?_⟩
        rw [lookD_set_ne _ _ _ _ _ (fun hx => hjne hx.symm)]
        exact hj2
      · have hdl : d = q.dense.length := by omega
        subst hdl
        have hfix : denseIdxAt (⟨q.dense ++ [(ent_idx e, v)],
            q.sparse.set (ent_idx e) ((q.dense.length : Int))⟩ : Pool T) q.dense.length
            = ent_idx e := by
          unfold denseIdxAt
          rw [look?_append_right _ _ _ (by omega), Nat.sub_self]
          rfl
        rw [hfix]
        exact ⟨by simpa using hlen1, by rw [lookD_set_self _ _ _ _ hlen1]⟩
    · intro i hi hne
      simp only [List.length_set] at hi
      by_cases hieq : i = ent_idx e
      · subst hieq
        refine ⟨q.dense.length, by simp, by rw [lookD_set_self _ _ _ _ hlen1], ?_⟩
        unfold denseIdxAt
        rw [look?_append_right _ _ _ (by omega), Nat.sub_self]
        rfl
      · rw [lookD_set_ne _ _ _ _ _ (fun hx => hieq hx.symm)] at hne ⊢
        obtain ⟨d, hd, hdi, hf⟩ := h3 i hi hne
        refine ⟨d, by simp; omega, hdi, ?_⟩
        unfold denseIdxAt at hf ⊢
        rw [look?_append_left _ _ _ hd]
        exact hf

theorem Inv_remove {T : Type} (p : Pool T) (e : Entity) (h : Inv p) :
    Inv (p.remove e) := by
  obtain ⟨h1, h2, h3⟩ := h
  unfold Pool.remove
  dsimp only
  split
  case isFalse => exact ⟨h1, h2, h3⟩
  case isTrue hslen =>
    split
    case isTrue => exact ⟨h1, h2, h3⟩
    case isFalse hdi =>
      have hne : lookD p.sparse (ent_idx e) (-1) ≠ -1 := by omega
      obtain ⟨dr, hdr, hdieq, hfst⟩ := h3 _ hslen hne
      have hlastlt : p.dense.length - 1 < p.dense.length := by omega
      obtain ⟨lp, hlp⟩ := look?_isSome_of_lt p.dense (p.dense.length - 1) hlastlt
      have hlpfst : denseIdxAt p (p.dense.length - 1) = lp.1 := by
        unfold denseIdxAt; rw [hlp]; rfl
      obtain ⟨hlast1, hlast2⟩ := h2 (p.dense.length - 1) hlastlt
      rw [hlpfst] at hlast1 hlast2
      rw [hlp]
      dsimp only
      rw [hdieq]
      simp only [Int.toNat_natCast]
      by_cases hdl : dr ≠ p.dense.length - 1
      · -- swap case: dr is not the last dense row
        simp only [if_pos hdl]
        have hlpne : lp.1 ≠ ent_idx e := by
          intro hx
          rw [hx, hdieq] at hlast2
          omega
        refine ⟨by simpa using h1, ?_, ?_⟩
        · intro d hd
          simp only [List.length_dropLast, List.length_set] at hd
          by_cases hdd : d = dr
          · subst hdd
            have hfix : denseIdxAt (⟨(p.dense.set d lp).dropLast,
                (p.sparse.set lp.1 ((d : Nat) : Int)).set (ent_idx e) (-1)⟩ : Pool T) d
                = lp.1 := by
              unfold denseIdxAt
              rw [look?_dropLast _ _ (by simp; omega), look?_set_self _ _ _ (by omega)]
              rfl
            rw [hfix]
            refine ⟨by simpa using hlast1, ?_⟩
            rw [lookD_set_ne _ _ _ _ _ (fun hx => hlpne hx.symm),
              lookD_set_self _ _ _ _ hlast1]
          · have hfix : denseIdxAt (⟨(p.dense.set dr lp).dropLast,
                (p.sparse.set lp.1 ((dr : Nat) : Int)).set (ent_idx e) (-1)⟩ : Pool T) d
                = denseIdxAt p d := by
              unfold denseIdxAt
              rw [look?_dropLast _ _ (by simp; omega),
                look?_set_ne _ _ _ _ (fun hx => hdd hx.symm)]
            rw [hfix]
            obtain ⟨hj1, hj2⟩ := h2 d (by omega)
            have hjne1 : denseIdxAt p d ≠ ent_idx e := by
              intro hx
              rw [hx, hdieq] at hj2
              omega
            have hjne2 : denseIdxAt p d ≠ lp.1 := by
              intro hx
              rw [hx, hlast2] at hj2
              omega
            refine ⟨by simpa using hj1, ?_⟩
            rw [lookD_set_ne _ _ _ _ _ (fun hx => hjne1 hx.symm),
              lookD_set_ne _ _ _ _ _ (fun hx => hjne2 hx.symm)]
            exact hj2
        · intro i hi hne'
          simp only [List.length_set] at hi
          by_cases hieq : i = ent_idx e
          · subst hieq
            rw [lookD_set_self _ _ _ _ (by simpa using hslen)] at hne'
            exact absurd rfl hne'
          · rw [lookD_set_ne _ _ _ _ _ (fun hx => hieq hx.symm)] at hne' ⊢
            by_cases hilp : i = lp.1
            · subst hilp
              rw [lookD_set_self _ _ _ _ hlast1] at hne' ⊢
              refine ⟨dr, by simp; omega, rfl, ?_⟩
              unfold denseIdxAt
              rw [look?_dropLast _ _ (by simp; omega), look?_set_self _ _ _ (by omega)]
              rfl
            · rw [lookD_set_ne _ _ _ _ _ (fun hx => hilp hx.symm)] at hne' ⊢
              obtain ⟨d, hd, hdi', hf'⟩ := h3 i hi hne'
              have hdne1 : d ≠ p.dense.length - 1 := by
                intro hx
                rw [hx, hlpfst] at hf'
                exact hilp hf'.symm
              have hdne2 : d ≠ dr := by
                intro hx
                rw [hx, hfst] at hf'
                exact hieq hf'.symm
              refine ⟨d, by simp; omega, hdi', ?_⟩
              unfold denseIdxAt at hf' ⊢
              rw [look?_dropLast _ _ (by simp; omega),
                look?_set_ne _ _ _ _ (fun hx => hdne2 hx.symm)]
              exact hf'
      · -- dr is the last dense row: plain pop
        simp only [if_neg hdl]
        have hdrlast : dr = p.dense.length - 1 := by omega
        refine ⟨by simpa using h1, ?_, ?_⟩
        · intro d hd
          simp only [List.length_dropLast] at hd
          have hfix : denseIdxAt (⟨p.dense.dropLast,
              p.sparse.set (ent_idx e) (-1)⟩ : Pool T) d = denseIdxAt p d := by
            unfold denseIdxAt
            rw [look?_dropLast _ _ (by omega)]
          rw [hfix]
          obtain ⟨hj1, hj2⟩ := h2 d (by omega)
          have hjne : denseIdxAt p d ≠ ent_idx e := by
            intro hx
            rw [hx, hdieq] at hj2
            omega
          refine ⟨by simpa using hj1, ?_⟩
          rw [lookD_set_ne _ _ _ _ _ (fun hx => hjne hx.symm)]
          exact hj2
        · intro i hi hne'
          simp only [List.length_set] at hi
          by_cases hieq : i = ent_idx e
          · subst hieq
            rw [lookD_set_self _ _ _ _ hslen] at hne'
            exact absurd rfl hne'
          · rw [lookD_set_ne _ _ _ _ _ (fun hx => hieq hx.symm)] at hne' ⊢
            obtain ⟨d, hd, hdi', hf'⟩ := h3 i hi hne'
            have hdne : d ≠ p.dense.length - 1 := by
              intro hx
              rw [hx, ← hdrlast] at hf'
              exact hieq (hf'.symm.trans hfst)
            refine ⟨d, by simp; omega, hdi', ?_⟩
            unfold denseIdxAt at hf' ⊢
            rw [look?_dropLast _ _ (by omega)]
            exact hf'

/-- An add/remove operation performed on a component store. -/
inductive PoolOp (T : Type) where
  | add : Entity → T → PoolOp T
  | remove : Entity → PoolOp T

def Pool.applyOp {T : Type} (p : Pool T) : PoolOp T → Pool T
  | .add e v => p.add e v
  | .remove e => p.remove e

def Pool.execOps {T : Type} (p : Pool T) : List (PoolOp T) → Pool T
  | [] => p
  | op :: ops => (p.applyOp op).execOps ops

theorem Inv_execOps {T : Type} (ops : List (PoolOp T)) :
    ∀ p : Pool T, Inv p → Inv (p.execOps ops) := by
  induction ops with
  | nil => intro p h; exact h
  | cons op ops ih =>
    intro p h
    show Inv ((p.applyOp op).execOps ops)
    cases op with
    | add e v => exact ih _ (Inv_add p e v h)
    | remove e => exact ih _ (Inv_remove p e h)

theorem has_iff {T : Type} (p : Pool T) (h : Inv p) (i : Nat) (hi : i < 65536) :
    p.has i = true ↔ (i < p.sparse.length ∧ lookD p.sparse i (-1) ≠ -1) := by
  obtain ⟨h1, h2, h3⟩ := h
  have hidx : ent_idx i = i := Nat.mod_eq_of_lt hi
  unfold Pool.has
  rw [hidx]
  constructor
  · intro hh
    by_cases hil : i < p.sparse.length
    · rw [if_pos hil] at hh
      simp only [Bool.and_eq_true, decide_eq_true_eq] at hh
      exact ⟨hil, by omega⟩
    · rw [if_neg hil] at hh
      exact absurd hh (by simp)
  · rintro ⟨hil, hne⟩
    rw [if_pos hil]
    obtain ⟨d, hd, hdi, hf⟩ := h3 i hil hne
    obtain ⟨pr, hpr⟩ := look?_isSome_of_lt p.dense d hd
    have hfst : pr.1 = i := by
      unfold denseIdxAt at hf
      rw [hpr] at hf
      simpa using hf
    rw [hdi]
    simp only [Int.toNat_natCast, hpr, Bool.and_eq_true, decide_eq_true_eq]
    refine ⟨⟨by omega, by omega⟩, ?_⟩
    simp [hfst]

theorem size_eq_card_has {T : Type} (p : Pool T) (h : Inv p) :
    p.size = ((Finset.range 65536).filter (fun i => p.has i = true)).card := by
  obtain ⟨h1, h2, h3⟩ := h
  have hcard : (Finset.range p.dense.length).card =
      ((Finset.range 65536).filter (fun i => p.has i = true)).card := by
    apply Finset.card_bij (fun d _ => denseIdxAt p d)
    · intro d hd
      rw [Finset.mem_range] at hd
      obtain ⟨hj1, hj2⟩ := h2 d hd
      rw [Finset.mem_filter, Finset.mem_range]
      refine ⟨by omega, ?_⟩
      rw [has_iff p ⟨h1, h2, h3⟩ _ (by omega)]
      exact ⟨hj1, by rw [hj2]; omega⟩
    · intro d1 hd1 d2 hd2 heq
      rw [Finset.mem_range] at hd1 hd2
      have e1 := (h2 d1 hd1).2
      have e2 := (h2 d2 hd2).2
      rw [heq] at e1
      rw [e1] at e2
      omega
    · intro b hb
      rw [Finset.mem_filter, Finset.mem_range] at hb
      obtain ⟨hb16, hbh⟩ := hb
      rw [has_iff p ⟨h1, h2, h3⟩ _ hb16] at hbh
      obtain ⟨d, hd, hdi, hf⟩ := h3 b hbh.1 hbh.2
      exact ⟨d, Finset.mem_range.mpr hd, hf⟩
  rw [Pool.size, ← hcard, Finset.card_range]

/-- **C6**: after any interleaved sequence of `add`/`remove` operations
    starting from the empty store, every live dense position `d` satisfies
    `sparse[dense_owner[d]] = d`, every non-absent sparse entry `i` satisfies
    `dense_owner[sparse[i]] = i`, and `size()` equals the number of entity
    indices for which `has()` is true. -/
theorem sparse_dense_consistency {T : Type} (ops : List (PoolOp T)) :
    (∀ d, d < (Pool.execOps ⟨[], []⟩ ops).dense.length →
      lookD (Pool.execOps ⟨[], []⟩ ops).sparse
        (denseIdxAt (Pool.execOps ⟨[], []⟩ ops) d) (-1) = (d : Int)) ∧
    (∀ i, i < (Pool.execOps ⟨[], []⟩ ops).sparse.length →
      lookD (Pool.execOps ⟨[], []⟩ ops).sparse i (-1) ≠ -1 →
      denseIdxAt (Pool.execOps ⟨[], []⟩ ops)
        ((lookD (Pool.execOps ⟨[], []⟩ ops).sparse i (-1)).toNat) = i) ∧
    (Pool.execOps ⟨[], []⟩ ops).size =
      ((Finset.range 65536).filter
        (fun i => (Pool.execOps ⟨[], []⟩ ops).has i = true)).card := by
  have hInv : Inv (Pool.execOps (⟨[], []⟩ : Pool T) ops) := Inv_execOps ops _ Inv_empty
  obtain ⟨h1, h2, h3⟩ := hInv
  refine ⟨fun d hd => (h2 d hd).2, ?_, size_eq_card_has _ ⟨h1, h2, h3⟩⟩
  intro i hi hne
  obtain ⟨d, hd, hdi, hf⟩ := h3 i hi hne
  rw [hdi]
  simpa using hf

theorem sparse_dense_consistency_witness :
    (0 < (Pool.execOps (⟨[], []⟩ : Pool Nat)
        [PoolOp.add 65537 5, PoolOp.add 2 7, PoolOp.remove 65537]).dense.length) ∧
    (lookD (Pool.execOps (⟨[], []⟩ : Pool Nat)
        [PoolOp.add 65537 5, PoolOp.add 2 7, PoolOp.remove 65537]).sparse
      (denseIdxAt (Pool.execOps (⟨[], []⟩ : Pool Nat)
        [PoolOp.add 65537 5, PoolOp.add 2 7, PoolOp.remove 65537]) 0) (-1) = (0 : Int)) ∧
    (denseIdxAt (Pool.execOps (⟨[], []⟩ : Pool Nat)
        [PoolOp.add 65537 5, PoolOp.add 2 7, PoolOp.remove 65537])
      ((lookD (Pool.execOps (⟨[], []⟩ : Pool Nat)
        [PoolOp.add 65537 5, PoolOp.add 2 7, PoolOp.remove 65537]).sparse 2 (-1)).toNat) = 2) :=
  ⟨by decide,
   (sparse_dense_consistency [PoolOp.add 65537 5, PoolOp.add 2 7, PoolOp.remove 65537]).1
     0 (by decide),
   (sparse_dense_consistency [PoolOp.add 65537 5, PoolOp.add 2 7, PoolOp.remove 65537]).2.1
     2 (by decide) (by decide)⟩

/-! ### World: chunked tiles (C5, C7) -/

theorem look?_eq_getElem? {α : Type} (l : List α) (i : Nat) : look? l i = l[i]? := by
  induction l generalizing i with
  | nil => rw [look?_nil]; simp
  | cons a t ih =>
    cases i with
    | zero => simp [look?]
    | succ j => simp [look?, ih j]

/-- Truncation toward zero, the behaviour of the C++ `(int)` cast on a float. -/
def ratTrunc (q : ℚ) : Int := if 0 ≤ q then q.floor else -((-q).floor)

/-- The ground height of the terrain generator at world column `wx`:
    `h = sin(wx*0.08)*4 + sin(wx*0.02)*10; ground = (int)(18 + h)`;
    `s` models `std::sin` (the float literals `0.08f`/`0.02f` are read as the
    rationals `2/25`/`1/50`; since `s` is arbitrary this only fixes naming of
    the two frequencies). -/
def groundHeight (s : ℚ → ℚ) (wx : Int) : Int :=
  ratTrunc (18 + (s ((wx : ℚ) * (2 / 25)) * 4 + s ((wx : ℚ) * (1 / 50)) * 10))

/-- The tile generated at world coordinates `(wx, wy)`:
    `0`; dirt `1` when `wy > ground`; stone `2` when `wy > ground+10`;
    grass `4` when `wy == ground`. -/
def genTile (s : ℚ → ℚ) (wx wy : Int) : Nat :=
  if wy > groundHeight s wx then
    (if wy > groundHeight s wx + 10 then 2 else 1)
  else if wy = groundHeight s wx then 4 else 0

/-- `struct Chunk { int cx, cy; std::vector<u16> tiles; bool used; }` -/
structure Chunk where
  cx : Int
  cy : Int
  tiles : List Nat
  used : Bool

/-- The freshly generated chunk: `tiles[ty*CHUNK+tx] = genTile (cx*32+tx) (cy*32+ty)`. -/
def gen_chunk (s : ℚ → ℚ) (cx cy : Int) : Chunk :=
  ⟨cx, cy,
   (List.range 1024).map (fun i =>
     genTile s (cx * 32 + ((i % 32 : Nat) : Int)) (cy * 32 + ((i / 32 : Nat) : Int))),
   true⟩

/-- `(u32)` cast of a signed 32-bit value. -/
def toU32 (z : Int) : Nat := (z % 4294967296).toNat

/-- `static inline long long key(int cx,int cy){ return ((long long)(u32)cx << 32) ^ (long long)(u32)cy; }` -/
def wkey (cx cy : Int) : Nat := ((toU32 cx) <<< 32) ^^^ (toU32 cy)

/-- `struct World` — the chunk map plus the pixels-per-tile scale (the
    renderer-only fields are irrelevant to the claims).  The
    `std::unordered_map` is an association list with first-match lookup. -/
structure World where
  tile_px : Int
  map : List (Nat × Chunk)

/-- `Chunk& get_chunk(int cx,int cy)` — cached chunk, or generate-and-insert
    on first access.  `s` models `std::sin`. -/
def World.get_chunk (s : ℚ → ℚ) (w : World) (cx cy : Int) : Chunk × World :=
  match w.map.lookup (wkey cx cy) with
  | some c => (c, w)
  | none =>
      let c := gen_chunk s cx cy
      (c, ⟨w.tile_px, (wkey cx cy, c) :: w.map⟩)

/-- Chunk coordinate of a world tile coordinate:
    `(w>=0)? (w/CHUNK) : -(((-w)+CHUNK-1)/CHUNK)` (all division operands are
    non-negative, where C++ and Lean division agree). -/
def chunkCoord (w : Int) : Int :=
  if w ≥ 0 then w / 32 else -(((-w) + 31) / 32)

/-- Local offset inside the chunk: `lx = wx - cx*CHUNK`. -/
def localOff (w : Int) : Int := w - chunkCoord w * 32

/-- `u16 get(int wx,int wy)` — resolve chunk (lazily creating it) and read
    the local tile. -/
def World.get (s : ℚ → ℚ) (w : World) (wx wy : Int) : Nat × World :=
  let cx := chunkCoord wx
  let cy := chunkCoord wy
  let lx := wx - cx * 32
  let ly := wy - cy * 32
  let cw := w.get_chunk s cx cy
  (lookD cw.1.tiles (ly * 32 + lx).toNat 0, cw.2)

/-- `void set(int wx,int wy,u16 v)` — resolve chunk (lazily creating it) and
    write the local tile; the in-place mutation of the cached chunk is
    modelled by an entry that shadows the old one under first-match lookup. -/
def World.set (s : ℚ → ℚ) (w : World) (wx wy : Int) (v : Nat) : World :=
  let cx := chunkCoord wx
  let cy := chunkCoord wy
  let lx := wx - cx * 32
  let ly := wy - cy * 32
  let cw := w.get_chunk s cx cy
  ⟨cw.2.tile_px,
   (wkey cx cy, ⟨cw.1.cx, cw.1.cy, cw.1.tiles.set (ly * 32 + lx).toNat v, cw.1.used⟩)
     :: cw.2.map⟩

/-- `bool solid(u16 t) const { return t!=0; }` -/
def World.solid (t : Nat) : Bool := t != 0

theorem lookup_mem_nat {β : Type} (l : List (Nat × β)) (k : Nat) (c : β)
    (h : l.lookup k = some c) : (k, c) ∈ l := by
  induction l with
  | nil => simp [List.lookup] at h
  | cons p t ih =>
    obtain ⟨k', b⟩ := p
    by_cases hk : k = k'
    · subst hk
      simp [List.lookup] at h
      subst h
      exact List.mem_cons_self _ _
    · have hbeq : (k == k') = false := by simpa using hk
      simp only [List.lookup, hbeq] at h
      exact List.mem_cons_of_mem _ (ih h)

theorem localOff_bounds (w : Int) : 0 ≤ localOff w ∧ localOff w < 32 := by
  unfold localOff chunkCoord
  by_cases h : w ≥ 0
  · rw [if_pos h]
    omega
  · rw [if_neg h]
    omega

theorem gen_chunk_tiles_length (s : ℚ → ℚ) (cx cy : Int) :
    (gen_chunk s cx cy).tiles.length = 1024 := by
  unfold gen_chunk
  simp

/-- **C5**: for all world tile coordinates, including negative ones,
    `get(wx,wy)` immediately after `set(wx,wy,v)` returns `v` (on any world
    whose cached chunks have the generated 32×32 size), and the local chunk
    offsets computed during addressing always lie in `[0, 32)`. -/
theorem tile_addressing_roundtrip (s : ℚ → ℚ) (w : World)
    (hwf : ∀ pr ∈ w.map, pr.2.tiles.length = 1024)
    (wx wy : Int) (v : Nat) :
    ((World.set s w wx wy v).get s wx wy).1 = v ∧
    (0 ≤ localOff wx ∧ localOff wx < 32) ∧
    (0 ≤ localOff wy ∧ localOff wy < 32) := by
  refine ⟨?_, localOff_bounds wx, localOff_bounds wy⟩
  have hx := localOff_bounds wx
  have hy := localOff_bounds wy
  unfold localOff at hx hy
  -- the chunk mutated by `set` has full 32×32 size
  have hclen : ((World.get_chunk s w (chunkCoord wx) (chunkCoord wy)).1).tiles.length = 1024 := by
    unfold World.get_chunk
    cases hl : w.map.lookup (wkey (chunkCoord wx) (chunkCoord wy)) with
    | some c =>
      simp only [hl]
      exact hwf _ (lookup_mem_nat _ _ _ hl)
    | none =>
      simp only [hl]
      exact gen_chunk_tiles_length s _ _
  have hidx : ((wy - chunkCoord wy * 32) * 32 + (wx - chunkCoord wx * 32)).toNat < 1024 := by
    omega
  unfold World.set World.get
  dsimp only
  generalize hcw : World.get_chunk s w (chunkCoord wx) (chunkCoord wy) = cw at hclen ⊢
  unfold World.get_chunk
  simp only [List.lookup, beq_self_eq_true, cond_true]
  rw [lookD_set_self _ _ _ _ (by rw [hclen]; exact hidx)]

theorem tile_addressing_roundtrip_witness :
    (∀ pr ∈ (⟨32, []⟩ : World).map, pr.2.tiles.length = 1024) ∧
    (((World.set (fun _ => 0) ⟨32, []⟩ (-5) (-33) 7).get (fun _ => 0) (-5) (-33)).1 = 7 ∧
     (0 ≤ localOff (-5) ∧ localOff (-5) < 32) ∧
     (0 ≤ localOff (-33) ∧ localOff (-33) < 32)) :=
  ⟨by simp, tile_addressing_roundtrip (fun _ => 0) ⟨32, []⟩ (by simp) (-5) (-33) 7⟩

theorem look?_range_map {α : Type} (f : Nat → α) (n i : Nat) (h : i < n) :
    look? ((List.range n).map f) i = some (f i) := by
  rw [look?_eq_getElem?]
  simp [List.getElem?_map, List.getElem?_range h]

/-- **C7**: on first creation of a chunk, the tile generated at world
    coordinates `(wx, wy) = (cx*32+tx, cy*32+ty)` follows the two-sine ground
    rule — stone (2) when more than 10 below the ground height, dirt (1) when
    below it by at most 10, grass (4) exactly at it, empty (0) above it —
    and the result is a pure deterministic function of the chunk coordinates:
    re-requesting the same chunk from the world that the first request
    produced returns the identical chunk, which equals `gen_chunk`, a pure
    function of `(cx, cy)` (and the modelled `sin`). -/
theorem chunk_generation_rule (s : ℚ → ℚ) (cx cy : Int) (tx ty : Nat)
    (htx : tx < 32) (hty : ty < 32) :
    (lookD (gen_chunk s cx cy).tiles (ty * 32 + tx) 0 =
      (if cy * 32 + (ty : Int) > groundHeight s (cx * 32 + (tx : Int)) + 10 then 2
       else if cy * 32 + (ty : Int) > groundHeight s (cx * 32 + (tx : Int)) then 1
       else if cy * 32 + (ty : Int) = groundHeight s (cx * 32 + (tx : Int)) then 4
       else 0)) ∧
    (∀ w : World, w.map.lookup (wkey cx cy) = none →
      (World.get_chunk s w cx cy).1 = gen_chunk s cx cy) ∧
    (∀ w : World,
      (World.get_chunk s (World.get_chunk s w cx cy).2 cx cy).1 =
        (World.get_chunk s w cx cy).1) := by
  refine ⟨?_, ?_, ?_⟩
  · have hidx : ty * 32 + tx < 1024 := by omega
    unfold gen_chunk
    rw [lookD, look?_range_map _ _ _ hidx]
    have hmod : (ty * 32 + tx) % 32 = tx := by omega
    have hdiv : (ty * 32 + tx) / 32 = ty := by omega
    rw [hmod, hdiv]
    simp only [Option.getD_some]
    unfold genTile
    split_ifs <;> omega
  · intro w hnone
    unfold World.get_chunk
    rw [hnone]
  · intro w
    unfold World.get_chunk
    cases hl : w.map.lookup (wkey cx cy) with
    | some c => simp [hl]
    | none => simp [hl, List.lookup]

theorem chunk_generation_rule_witness :
    (5 < 32 ∧ 20 < 32) ∧
    ((lookD (gen_chunk (fun _ => 0) 0 0).tiles (20 * 32 + 5) 0 =
      (if (0 : Int) * 32 + (20 : Nat) > groundHeight (fun _ => 0) (0 * 32 + (5 : Nat)) + 10 then 2
       else if (0 : Int) * 32 + (20 : Nat) > groundHeight (fun _ => 0) (0 * 32 + (5 : Nat)) then 1
       else if (0 : Int) * 32 + (20 : Nat) = groundHeight (fun _ => 0) (0 * 32 + (5 : Nat)) then 4
       else 0)) ∧
     (∀ w : World, w.map.lookup (wkey 0 0) = none →
       (World.get_chunk (fun _ => 0) w 0 0).1 = gen_chunk (fun _ => 0) 0 0) ∧
     (∀ w : World,
       (World.get_chunk (fun _ => 0) (World.get_chunk (fun _ => 0) w 0 0).2 0 0).1 =
         (World.get_chunk (fun _ => 0) w 0 0).1)) :=
  ⟨⟨by decide, by decide⟩, chunk_generation_rule (fun _ => 0) 0 0 5 20 (by decide) (by decide)⟩

theorem lookD_eq_get {α : Type} (l : List α) (i : Nat) (d : α) (h : i < l.length) :
    lookD l i d = l.get ⟨i, h⟩ := by
  rw [lookD, look?_eq_getElem?]
  simp [List.getElem?_eq_getElem h]

/-! ### LightMap: flood-fill tile lighting (C2, C9) -/

/-- `struct LightMap` — grid size in tiles, world-tile origin of cell (0,0),
    the intensity grid, and the ambient floor. -/
structure LightMap where
  w : Nat
  h : Nat
  ox : Int
  oy : Int
  L : List Nat
  ambient : Nat
deriving DecidableEq

/-- `u8 sample_tile(int world_tx,int world_ty) const` — grid value inside,
    `ambient` outside. -/
def LightMap.sample_tile (lm : LightMap) (world_tx world_ty : Int) : Nat :=
  let x := world_tx - lm.ox
  let y := world_ty - lm.oy
  if x < 0 ∨ y < 0 ∨ x ≥ (lm.w : Int) ∨ y ≥ (lm.h : Int) then lm.ambient
  else lookD lm.L (y.toNat * lm.w + x.toNat) lm.ambient

/-- The `push` lambda of `LightMap::build`: bounds-check, monotone raise,
    enqueue on raise. -/
def lpush (w h : Nat) (st : List Nat × List (Int × Int × Nat)) (x y : Int) (v : Nat) :
    List Nat × List (Int × Int × Nat) :=
  if x < 0 ∨ y < 0 ∨ x ≥ (w : Int) ∨ y ≥ (h : Int) then st
  else
    let idx := y.toNat * w + x.toNat
    if v ≤ lookD st.1 idx 0 then st
    else (st.1.set idx v, st.2 ++ [(x, y, v)])

/-- The BFS propagation loop of `LightMap::build`
    (`for(size_t qi=0; qi<q.size(); qi++) ...`), iterated with fuel; when the
    fuel exceeds the final queue length the recursion stops at the `none`
    case exactly like the source loop.  `solidAt wx wy` stands for
    `world.solid(world.get(wx,wy))`, the only way `build` consumes the
    world. -/
def lbfs (solidAt : Int → Int → Bool) (ox oy : Int) (w h : Nat) :
    Nat → Nat → List Nat × List (Int × Int × Nat) → List Nat × List (Int × Int × Nat)
  | 0, _, st => st
  | fuel + 1, qi, st =>
    match look? st.2 qi with
    | none => st
    | some n =>
      if n.2.2 ≤ 1 then lbfs solidAt ox oy w h fuel (qi + 1) st
      else
        let decay := if solidAt (ox + n.1) (oy + n.2.1) then 18 else 12
        let nv := if n.2.2 > decay then n.2.2 - decay else 0
        let st1 := lpush w h st (n.1 + 1) n.2.1 nv
        let st2 := lpush w h st1 (n.1 - 1) n.2.1 nv
        let st3 := lpush w h st2 n.1 (n.2.1 + 1) nv
        let st4 := lpush w h st3 n.1 (n.2.1 - 1) nv
        lbfs solidAt ox oy w h fuel (qi + 1) st4

/-- `void build(World&, const Camera2D&, const std::vector<LightSource>&)`
    from the point where the margined visible tile rectangle
    `[tx0,tx1]x[ty0,ty1]` has been computed from the camera (the float-only
    camera arithmetic): allocate the grid at `ambient`, seed the lights
    (already converted to world tile coordinates), and run the BFS. -/
def buildLight (solidAt : Int → Int → Bool) (tx0 tx1 ty0 ty1 : Int)
    (lights : List (Int × Int × Nat)) (ambient : Nat) (fuel : Nat) : LightMap :=
  if tx1 - tx0 + 1 ≤ 0 ∨ ty1 - ty0 + 1 ≤ 0 then ⟨0, 0, tx0, ty0, [], ambient⟩
  else
    let w := (tx1 - tx0 + 1).toNat
    let h := (ty1 - ty0 + 1).toNat
    let st0 : List Nat × List (Int × Int × Nat) := (List.replicate (w * h) ambient, [])
    let st1 := lights.foldl (fun st l => lpush w h st (l.1 - tx0) (l.2.1 - ty0) l.2.2) st0
    let stF := lbfs solidAt tx0 ty0 w h fuel 0 st1
    ⟨w, h, tx0, ty0, stF.1, ambient⟩

theorem lpush_length (w h : Nat) (st : List Nat × List (Int × Int × Nat)) (x y : Int) (v : Nat) :
    (lpush w h st x y v).1.length = st.1.length := by
  unfold lpush
  split
  · rfl
  · dsimp only
    split
    · rfl
    · simp

theorem lbfs_length (solidAt : Int → Int → Bool) (ox oy : Int) (w h : Nat) :
    ∀ (fuel qi : Nat) (st : List Nat × List (Int × Int × Nat)),
    (lbfs solidAt ox oy w h fuel qi st).1.length = st.1.length := by
  intro fuel
  induction fuel with
  | zero => intro qi st; rfl
  | succ f ih =>
    intro qi st
    show (lbfs solidAt ox oy w h (f + 1) qi st).1.length = st.1.length
    unfold lbfs
    cases hq : look? st.2 qi with
    | none => rfl
    | some n =>
      dsimp only
      split
      · exact ih (qi + 1) st
      · rw [ih]
        simp only [lpush_length]

/-- The grid built by `build` always has `w*h` cells (the premise of the C9
    in-bounds read). -/
theorem buildLight_L_length (solidAt : Int → Int → Bool) (tx0 tx1 ty0 ty1 : Int)
    (lights : List (Int × Int × Nat)) (ambient : Nat) (fuel : Nat) :
    (buildLight solidAt tx0 tx1 ty0 ty1 lights ambient fuel).L.length =
      (buildLight solidAt tx0 tx1 ty0 ty1 lights ambient fuel).w *
      (buildLight solidAt tx0 tx1 ty0 ty1 lights ambient fuel).h := by
  unfold buildLight
  split
  · rfl
  · dsimp only
    rw [lbfs_length]
    have hfold : ∀ (ls : List (Int × Int × Nat)) (st : List Nat × List (Int × Int × Nat)),
        (ls.foldl (fun st l => lpush (tx1 - tx0 + 1).toNat (ty1 - ty0 + 1).toNat st
          (l.1 - tx0) (l.2.1 - ty0) l.2.2) st).1.length = st.1.length := by
      intro ls
      induction ls with
      | nil => intro st; rfl
      | cons a t ih =>
        intro st
        rw [List.foldl_cons, ih, lpush_length]
    rw [hfold]
    simp

/-- **C9**: `sample_tile` is total on every coordinate and every light-map
    state whose grid has the built `w*h` size: inside the grid it returns the
    stored cell, outside it returns the ambient floor — never an error. -/
theorem sample_tile_in_or_out (lm : LightMap) (tx ty : Int)
    (hlen : lm.L.length = lm.w * lm.h) :
    (∀ hin : 0 ≤ tx - lm.ox ∧ tx - lm.ox < (lm.w : Int) ∧
             0 ≤ ty - lm.oy ∧ ty - lm.oy < (lm.h : Int),
      ∃ hidx : (ty - lm.oy).toNat * lm.w + (tx - lm.ox).toNat < lm.L.length,
        lm.sample_tile tx ty =
          lm.L.get ⟨(ty - lm.oy).toNat * lm.w + (tx - lm.ox).toNat, hidx⟩) ∧
    ((¬ (0 ≤ tx - lm.ox ∧ tx - lm.ox < (lm.w : Int) ∧
         0 ≤ ty - lm.oy ∧ ty - lm.oy < (lm.h : Int))) →
      lm.sample_tile tx ty = lm.ambient) := by
  constructor
  · rintro ⟨hx0, hxw, hy0, hyh⟩
    have hxlt : (tx - lm.ox).toNat < lm.w := by omega
    have hylt : (ty - lm.oy).toNat < lm.h := by omega
    have hidx : (ty - lm.oy).toNat * lm.w + (tx - lm.ox).toNat < lm.L.length := by
      have h1 : (ty - lm.oy).toNat * lm.w + (tx - lm.ox).toNat <
          ((ty - lm.oy).toNat + 1) * lm.w := by
        rw [Nat.succ_mul]
        omega
      have h2 : ((ty - lm.oy).toNat + 1) * lm.w ≤ lm.h * lm.w :=
        Nat.mul_le_mul_right _ (by omega)
      have h3 : lm.h * lm.w = lm.w * lm.h := Nat.mul_comm _ _
      omega
    refine ⟨hidx, ?_⟩
    unfold LightMap.sample_tile
    rw [if_neg (by omega)]
    exact lookD_eq_get _ _ _ hidx
  · intro hout
    unfold LightMap.sample_tile
    rw [if_pos (by omega)]

theorem sample_tile_in_or_out_witness :
    ((⟨2, 2, 0, 0, [9, 8, 7, 6], 35⟩ : LightMap).L.length =
        (⟨2, 2, 0, 0, [9, 8, 7, 6], 35⟩ : LightMap).w *
        (⟨2, 2, 0, 0, [9, 8, 7, 6], 35⟩ : LightMap).h) ∧
    ((∀ hin : 0 ≤ (1 : Int) - 0 ∧ (1 : Int) - 0 < ((2 : Nat) : Int) ∧
              0 ≤ (1 : Int) - 0 ∧ (1 : Int) - 0 < ((2 : Nat) : Int),
        ∃ hidx : ((1 : Int) - 0).toNat * 2 + ((1 : Int) - 0).toNat <
            ([9, 8, 7, 6] : List Nat).length,
          (⟨2, 2, 0, 0, [9, 8, 7, 6], 35⟩ : LightMap).sample_tile 1 1 =
            ([9, 8, 7, 6] : List Nat).get
              ⟨((1 : Int) - 0).toNat * 2 + ((1 : Int) - 0).toNat, hidx⟩) ∧
      ((¬ (0 ≤ (1 : Int) - 0 ∧ (1 : Int) - 0 < ((2 : Nat) : Int) ∧
           0 ≤ (1 : Int) - 0 ∧ (1 : Int) - 0 < ((2 : Nat) : Int))) →
        (⟨2, 2, 0, 0, [9, 8, 7, 6], 35⟩ : LightMap).sample_tile 1 1 =
          (⟨2, 2, 0, 0, [9, 8, 7, 6], 35⟩ : LightMap).ambient)) :=
  ⟨by decide, sample_tile_in_or_out ⟨2, 2, 0, 0, [9, 8, 7, 6], 35⟩ 1 1 (by decide)⟩

/-- The C2 scenario world: the only solid tiles are the 1-tile-thick floor at
    `y = 10` spanning `x` in `[-15, 15]` (`build` consumes the world solely
    through `world.solid(world.get(wx,wy))`, so the scenario world is its
    solidity predicate). -/
def floorSolid (wx wy : Int) : Bool := (wy == 10) && decide (-15 ≤ wx) && decide (wx ≤ 15)

/-- The C2 scenario build: a margined visible rectangle `[-15,15]x[9,14]`
    covering the scenario region — the whole floor span, the light tile
    `(0,9)` and the sample tile `(0,14)` — with the single light of intensity
    255 at tile `(0,9)` and ambient 35.  Fuel 1000 exceeds the final queue
    length (174), so the BFS runs to completion exactly like the source
    loop. -/
def scenarioLM : LightMap := buildLight floorSolid (-15) 15 9 14 [(0, 9, 255)] 35 1000

set_option maxRecDepth 100000 in
set_option maxHeartbeats 4000000 in
/-- The scenario build evaluated: the full grid it produces. -/
theorem scenarioLM_eval : scenarioLM = ⟨31, 6, -15, 9,
  [75, 87, 99, 111, 123, 135, 147, 159, 171, 183, 195, 207, 219, 231, 243, 255, 243, 231, 219,
  207, 195, 183, 171, 159, 147, 135, 123, 111, 99, 87, 75, 63, 75, 87, 99, 111, 123, 135, 147,
  159, 171, 183, 195, 207, 219, 231, 243, 231, 219, 207, 195, 183, 171, 159, 147, 135, 123, 111,
  99, 87, 75, 63, 45, 57, 69, 81, 93, 105, 117, 129, 141, 153, 165, 177, 189, 201, 213, 225, 213,
  201, 189, 177, 165, 153, 141, 129, 117, 105, 93, 81, 69, 57, 45, 35, 45, 57, 69, 81, 93, 105,
  117, 129, 141, 153, 165, 177, 189, 201, 213, 201, 189, 177, 165, 153, 141, 129, 117, 105, 93,
  81, 69, 57, 45, 35, 35, 35, 45, 57, 69, 81, 93, 105, 117, 129, 141, 153, 165, 177, 189, 201,
  189, 177, 165, 153, 141, 129, 117, 105, 93, 81, 69, 57, 45, 35, 35, 35, 35, 35, 45, 57, 69, 81,
  93, 105, 117, 129, 141, 153, 165, 177, 189, 177, 165, 153, 141, 129, 117, 105, 93, 81, 69, 57,
  45, 35, 35, 35],
  35⟩ := by decide

/-- **C2** (counterexample to the claim as stated): in the scenario,
    `sample_tile(0,14)` is 189, not `max(0, 255 - 18*5) = 165` — the
    attenuation step is chosen by the solidity of the cell the light leaves,
    and only one of the five downward steps leaves a solid cell. -/
theorem light_scenario_not_165 : scenarioLM.sample_tile 0 14 ≠ 165 := by
  rw [scenarioLM_eval]
  decide

/-- **C2** (amended): in the scenario, `sample_tile(0,9) = 255` and
    `sample_tile(0,14) = 255 - 4*12 - 18 = 189`: four of the five downward
    steps start in empty cells (decay 12) and exactly one starts in the solid
    floor cell at `(0,10)` (decay 18). -/
theorem light_scenario_values :
    scenarioLM.sample_tile 0 9 = 255 ∧ scenarioLM.sample_tile 0 14 = 189 := by
  rw [scenarioLM_eval]
  exact ⟨by decide, by decide⟩


/-! ### Tile physics (C3, C8) -/

structure V2 where
  x : ℚ
  y : ℚ
deriving DecidableEq

/-- `struct CTransform { v2 pos; f32 rot; v2 scale; }` -/
structure CTransform where
  pos : V2
  rot : ℚ
  scale : V2
deriving DecidableEq

/-- `struct CVel { v2 v; }` -/
structure CVel where
  v : V2
deriving DecidableEq

/-- `struct CCollider { v2 half; bool on_ground; }` -/
structure CCollider where
  half : V2
  on_ground : Bool
deriving DecidableEq

/-- The `ECS` aggregate restricted to the pools `sys_physics` touches
    (`player`, `spr` and `light` pools are neither read nor written by it). -/
structure ECS where
  reg : Registry
  tr : Pool CTransform
  vel : Pool CVel
  col : Pool CCollider

/-- `static inline int floor_div_tile(f32 x, int tile_px){ return (int)std::floor(x/(f32)tile_px); }` -/
def floor_div_tile (x : ℚ) (tile_px : Int) : Int := ⌊x / (tile_px : ℚ)⌋

/-- `static inline bool aabb_overlaps_tile(v2 pos, v2 half, int tile_px, int tx,int ty)` -/
def aabb_overlaps_tile (pos : V2) (half : V2) (tile_px : Int) (tx ty : Int) : Bool :=
  let x0 := pos.x - half.x
  let x1 := pos.x + half.x
  let y0 := pos.y - half.y
  let y1 := pos.y + half.y
  let t0 : ℚ := ((tx * tile_px : Int) : ℚ)
  let t1 := t0 + (tile_px : ℚ)
  let s0 : ℚ := ((ty * tile_px : Int) : ℚ)
  let s1 := s0 + (tile_px : ℚ)
  !(decide (x1 ≤ t0) || decide (x0 ≥ t1) || decide (y1 ≤ s0) || decide (y0 ≥ s1))

/-- The tile coordinates visited by the nested scan loops, row-major:
    `for(ty=min_ty..max_ty) for(tx=min_tx..max_tx)`. -/
def scanTiles (min_tx max_tx min_ty max_ty : Int) : List (Int × Int) :=
  ((List.range (max_ty - min_ty + 1).toNat).map (fun j => min_ty + (j : Int))).flatMap
    (fun ty => ((List.range (max_tx - min_tx + 1).toNat).map (fun i => min_tx + (i : Int))).map
      (fun tx => (tx, ty)))

/-- One iteration of the X-axis push-out scan, on the running
    `(pos.x, v.x)` state. -/
def xstep (tileAt : Int → Int → Nat) (tp : Int) (posY halfX halfY : ℚ)
    (st : ℚ × ℚ) (t : Int × Int) : ℚ × ℚ :=
  if World.solid (tileAt t.1 t.2) &&
      aabb_overlaps_tile ⟨st.1, posY⟩ ⟨halfX, halfY⟩ tp t.1 t.2 then
    let tile_left : ℚ := ((t.1 * tp : Int) : ℚ)
    let tile_right := tile_left + (tp : ℚ)
    let newx := if st.2 > 0 then tile_left - halfX
                else if st.2 < 0 then tile_right + halfX
                else st.1
    (newx, 0)
  else st

/-- `static inline void resolve_axis_x(ECS&, World&, Entity, f32)` —
    `tileAt wx wy` stands for the value of `world.get(wx,wy)`; the in-place
    pointer writes are the final `modify` write-backs of the folded state. -/
def resolve_axis_x (ecs : ECS) (tileAt : Int → Int → Nat) (tp : Int) (e : Entity) (dt : ℚ) :
    ECS :=
  match ecs.tr.get e, ecs.vel.get e, ecs.col.get e with
  | some t, some v, some c =>
    let px0 := t.pos.x + v.v.x * dt
    let min_tx := floor_div_tile (px0 - c.half.x) tp - 1
    let max_tx := floor_div_tile (px0 + c.half.x) tp + 1
    let min_ty := floor_div_tile (t.pos.y - c.half.y) tp - 1
    let max_ty := floor_div_tile (t.pos.y + c.half.y) tp + 1
    let fin := (scanTiles min_tx max_tx min_ty max_ty).foldl
        (xstep tileAt tp t.pos.y c.half.x c.half.y) (px0, v.v.x)
    { ecs with
      tr := ecs.tr.modify e (fun t0 => { t0 with pos := ⟨fin.1, t0.pos.y⟩ }),
      vel := ecs.vel.modify e (fun v0 => { v0 with v := ⟨fin.2, v0.v.y⟩ }) }
  | _, _, _ => ecs

/-- The running state of the Y-axis scan: position, velocity, ground flag. -/
structure YS where
  py : ℚ
  vy : ℚ
  ground : Bool
deriving DecidableEq

/-- One iteration of the Y-axis push-out scan: push out of an overlapping
    solid tile (down sets `on_ground`), then zero `v.y`. -/
def ystep (tileAt : Int → Int → Nat) (tp : Int) (posX halfX halfY : ℚ)
    (st : YS) (t : Int × Int) : YS :=
  if World.solid (tileAt t.1 t.2) &&
      aabb_overlaps_tile ⟨posX, st.py⟩ ⟨halfX, halfY⟩ tp t.1 t.2 then
    let tile_top : ℚ := ((t.2 * tp : Int) : ℚ)
    let tile_bottom := tile_top + (tp : ℚ)
    let st1 := if st.vy > 0 then YS.mk (tile_top - halfY) st.vy true
               else if st.vy < 0 then YS.mk (tile_bottom + halfY) st.vy st.ground
               else st
    ⟨st1.py, 0, st1.ground⟩
  else st

/-- `static inline void resolve_axis_y(ECS&, World&, Entity, f32)` —
    `c->on_ground=false` at entry is the `false` seeding the fold. -/
def resolve_axis_y (ecs : ECS) (tileAt : Int → Int → Nat) (tp : Int) (e : Entity) (dt : ℚ) :
    ECS :=
  match ecs.tr.get e, ecs.vel.get e, ecs.col.get e with
  | some t, some v, some c =>
    let py0 := t.pos.y + v.v.y * dt
    let min_tx := floor_div_tile (t.pos.x - c.half.x) tp - 1
    let max_tx := floor_div_tile (t.pos.x + c.half.x) tp + 1
    let min_ty := floor_div_tile (py0 - c.half.y) tp - 1
    let max_ty := floor_div_tile (py0 + c.half.y) tp + 1
    let fin := (scanTiles min_tx max_tx min_ty max_ty).foldl
        (ystep tileAt tp t.pos.x c.half.x c.half.y) ⟨py0, v.v.y, false⟩
    { ecs with
      tr := ecs.tr.modify e (fun t0 => { t0 with pos := ⟨t0.pos.x, fin.py⟩ }),
      vel := ecs.vel.modify e (fun v0 => { v0 with v := ⟨v0.v.x, fin.vy⟩ }),
      col := ecs.col.modify e (fun c0 => { c0 with on_ground := fin.ground }) }
  | _, _, _ => ecs

/-- `std::min(a, b)`: `(b < a) ? b : a`. -/
def qmin (a b : ℚ) : ℚ := if b < a then b else a

/-- The gravity update applied per velocity row:
    `v->v.y += 1200*dt; v->v.y = min(v->v.y, 3000)`. -/
def gravApply (dt : ℚ) (v : CVel) : CVel := ⟨⟨v.v.x, qmin (v.v.y + 1200 * dt) 3000⟩⟩

/-- The gravity loop of `sys_physics`. -/
def sys_gravity (ecs : ECS) (dt : ℚ) : ECS :=
  (List.range ecs.vel.size).foldl (fun acc i =>
    let e := acc.vel.entity_at i acc.reg
    if acc.reg.alive e then { acc with vel := acc.vel.modify e (gravApply dt) }
    else acc) ecs

/-- The body of the resolution loop of `sys_physics`:
    skip unless alive with Transform and Velocity, else resolve X then Y. -/
def physStep (tileAt : Int → Int → Nat) (tp : Int) (dt : ℚ) (acc : ECS) (i : Nat) : ECS :=
  let e := acc.col.entity_at i acc.reg
  if acc.reg.alive e then
    if (acc.tr.get e).isSome && (acc.vel.get e).isSome then
      resolve_axis_y (resolve_axis_x acc tileAt tp e dt) tileAt tp e dt
    else acc
  else acc

/-- `static inline void sys_physics(ECS&, World&, f32)` — gravity over the
    velocity pool, then X-before-Y resolution over the collider pool. -/
def sys_physics (ecs : ECS) (tileAt : Int → Int → Nat) (tp : Int) (dt : ℚ) : ECS :=
  let ecs1 := sys_gravity ecs dt
  (List.range ecs1.col.size).foldl (physStep tileAt tp dt) ecs1

/-! ### Pointer-write lemmas for `Pool.modify` -/

theorem get_congr {T : Type} (p : Pool T) (e e' : Entity) (h : ent_idx e = ent_idx e') :
    p.get e = p.get e' := by
  unfold Pool.get
  rw [h]

theorem modify_congr {T : Type} (p : Pool T) (e e' : Entity) (f : T → T)
    (h : ent_idx e = ent_idx e') : p.modify e f = p.modify e' f := by
  unfold Pool.modify
  rw [h]

theorem modify_get_same {T : Type} (p : Pool T) (e : Entity) (f : T → T) :
    (p.modify e f).get e = (p.get e).map f := by
  by_cases h1 : ent_idx e < p.sparse.length
  · by_cases h2 : lookD p.sparse (ent_idx e) (-1) < 0
    · have hm : p.modify e f = p := by
        unfold Pool.modify; dsimp only; rw [if_pos h1, if_pos h2]
      have hg : p.get e = none := by
        unfold Pool.get; dsimp only; rw [if_pos h1, if_pos h2]
      rw [hm, hg]; rfl
    · by_cases h3 : (p.dense.length : Int) ≤ lookD p.sparse (ent_idx e) (-1)
      · have hm : p.modify e f = p := by
          unfold Pool.modify; dsimp only; rw [if_pos h1, if_neg h2, if_pos h3]
        have hg : p.get e = none := by
          unfold Pool.get; dsimp only; rw [if_pos h1, if_neg h2, if_pos h3]
        rw [hm, hg]; rfl
      · have hlt : (lookD p.sparse (ent_idx e) (-1)).toNat < p.dense.length := by omega
        obtain ⟨pr, hpr⟩ := look?_isSome_of_lt _ _ hlt
        by_cases h4 : pr.1 = ent_idx e
        · have hm : p.modify e f = ⟨p.dense.set (lookD p.sparse (ent_idx e) (-1)).toNat
              (pr.1, f pr.2), p.sparse⟩ := by
            unfold Pool.modify; dsimp only
            rw [if_pos h1, if_neg h2, if_neg h3, hpr]
            dsimp only
            rw [if_pos h4]
          have hg : p.get e = some pr.2 := by
            unfold Pool.get; dsimp only
            rw [if_pos h1, if_neg h2, if_neg h3, hpr]
            dsimp only
            rw [if_pos h4]
          rw [hm, hg]
          unfold Pool.get
          dsimp only
          rw [if_pos h1, if_neg h2]
          have hlen : (((p.dense.set (lookD p.sparse (ent_idx e) (-1)).toNat
              (pr.1, f pr.2)).length : Int)) = (p.dense.length : Int) := by simp
          rw [hlen, if_neg h3, look?_set_self _ _ _ hlt]
          dsimp only
          rw [if_pos h4]
          rfl
        · have hm : p.modify e f = p := by
            unfold Pool.modify; dsimp only
            rw [if_pos h1, if_neg h2, if_neg h3, hpr]
            dsimp only
            rw [if_neg h4]
          have hg : p.get e = none := by
            unfold Pool.get; dsimp only
            rw [if_pos h1, if_neg h2, if_neg h3, hpr]
            dsimp only
            rw [if_neg h4]
          rw [hm, hg]; rfl
  · have hm : p.modify e f = p := by
      unfold Pool.modify; dsimp only; rw [if_neg h1]
    have hg : p.get e = none := by
      unfold Pool.get; dsimp only; rw [if_neg h1]
    rw [hm, hg]; rfl

theorem modify_get_other {T : Type} (p : Pool T) (e e' : Entity) (f : T → T)
    (hne : ent_idx e ≠ ent_idx e') : (p.modify e' f).get e = p.get e := by
  by_cases h1 : ent_idx e' < p.sparse.length
  · by_cases h2 : lookD p.sparse (ent_idx e') (-1) < 0
    · have hm : p.modify e' f = p := by
        unfold Pool.modify; dsimp only; rw [if_pos h1, if_pos h2]
      rw [hm]
    · by_cases h3 : (p.dense.length : Int) ≤ lookD p.sparse (ent_idx e') (-1)
      · have hm : p.modify e' f = p := by
          unfold Pool.modify; dsimp only; rw [if_pos h1, if_neg h2, if_pos h3]
        rw [hm]
      · have hlt' : (lookD p.sparse (ent_idx e') (-1)).toNat < p.dense.length := by omega
        obtain ⟨pr, hpr⟩ := look?_isSome_of_lt _ _ hlt'
        by_cases h4 : pr.1 = ent_idx e'
        · have hm : p.modify e' f = ⟨p.dense.set (lookD p.sparse (ent_idx e') (-1)).toNat
              (pr.1, f pr.2), p.sparse⟩ := by
            unfold Pool.modify; dsimp only
            rw [if_pos h1, if_neg h2, if_neg h3, hpr]
            dsimp only
            rw [if_pos h4]
          rw [hm]
          unfold Pool.get
          dsimp only
          by_cases g1 : ent_idx e < p.sparse.length
          · rw [if_pos g1, if_pos g1]
            by_cases g2 : lookD p.sparse (ent_idx e) (-1) < 0
            · rw [if_pos g2, if_pos g2]
            · rw [if_neg g2, if_neg g2]
              have hlen : (((p.dense.set (lookD p.sparse (ent_idx e') (-1)).toNat
                  (pr.1, f pr.2)).length : Int)) = (p.dense.length : Int) := by simp
              rw [hlen]
              by_cases g3 : (p.dense.length : Int) ≤ lookD p.sparse (ent_idx e) (-1)
              · rw [if_pos g3, if_pos g3]
              · rw [if_neg g3, if_neg g3]
                by_cases gii : (lookD p.sparse (ent_idx e) (-1)).toNat =
                    (lookD p.sparse (ent_idx e') (-1)).toNat
                · rw [gii, look?_set_self _ _ _ hlt', hpr]
                  dsimp only
                  have hfalse : ¬ (pr.1 = ent_idx e) := by
                    rw [h4]; exact fun hx => hne hx.symm
                  rw [if_neg hfalse, if_neg hfalse]
                · rw [look?_set_ne _ _ _ _ (fun hx => gii hx.symm)]
          · rw [if_neg g1, if_neg g1]
        · have hm : p.modify e' f = p := by
            unfold Pool.modify; dsimp only
            rw [if_pos h1, if_neg h2, if_neg h3, hpr]
            dsimp only
            rw [if_neg h4]
          rw [hm]
  · have hm : p.modify e' f = p := by
      unfold Pool.modify; dsimp only; rw [if_neg h1]
    rw [hm]

theorem modify_get_none {T : Type} (p : Pool T) (e e' : Entity) (f : T → T)
    (h : p.get e = none) : (p.modify e' f).get e = none := by
  by_cases hne : ent_idx e = ent_idx e'
  · rw [← modify_congr p e e' f hne, modify_get_same, h]
    rfl
  · rw [modify_get_other p e e' f hne, h]

/-! ### C3: malformed entities and `sys_physics` -/

theorem resolve_x_noop (ecs : ECS) (tileAt : Int → Int → Nat) (tp : Int) (e : Entity) (dt : ℚ)
    (h : ecs.tr.get e = none ∨ ecs.vel.get e = none ∨ ecs.col.get e = none) :
    resolve_axis_x ecs tileAt tp e dt = ecs := by
  unfold resolve_axis_x
  rcases h with h | h | h
  · rw [h]
  · rw [h]
    cases ecs.tr.get e <;> rfl
  · rw [h]
    cases ecs.tr.get e <;> cases ecs.vel.get e <;> rfl

theorem resolve_y_noop (ecs : ECS) (tileAt : Int → Int → Nat) (tp : Int) (e : Entity) (dt : ℚ)
    (h : ecs.tr.get e = none ∨ ecs.vel.get e = none ∨ ecs.col.get e = none) :
    resolve_axis_y ecs tileAt tp e dt = ecs := by
  unfold resolve_axis_y
  rcases h with h | h | h
  · rw [h]
  · rw [h]
    cases ecs.tr.get e <;> rfl
  · rw [h]
    cases ecs.tr.get e <;> cases ecs.vel.get e <;> rfl

theorem resolve_x_other (ecs : ECS) (tileAt : Int → Int → Nat) (tp : Int) (e' : Entity) (dt : ℚ)
    (e : Entity) (hne : ent_idx e ≠ ent_idx e') :
    (resolve_axis_x ecs tileAt tp e' dt).tr.get e = ecs.tr.get e ∧
    (resolve_axis_x ecs tileAt tp e' dt).vel.get e = ecs.vel.get e ∧
    (resolve_axis_x ecs tileAt tp e' dt).col.get e = ecs.col.get e := by
  unfold resolve_axis_x
  cases ht : ecs.tr.get e' with
  | none => exact ⟨rfl, rfl, rfl⟩
  | some t =>
    cases hv : ecs.vel.get e' with
    | none => exact ⟨rfl, rfl, rfl⟩
    | some v =>
      cases hc : ecs.col.get e' with
      | none => exact ⟨rfl, rfl, rfl⟩
      | some c =>
        dsimp only
        exact ⟨modify_get_other _ _ _ _ hne, modify_get_other _ _ _ _ hne, rfl⟩

theorem resolve_y_other (ecs : ECS) (tileAt : Int → Int → Nat) (tp : Int) (e' : Entity) (dt : ℚ)
    (e : Entity) (hne : ent_idx e ≠ ent_idx e') :
    (resolve_axis_y ecs tileAt tp e' dt).tr.get e = ecs.tr.get e ∧
    (resolve_axis_y ecs tileAt tp e' dt).vel.get e = ecs.vel.get e ∧
    (resolve_axis_y ecs tileAt tp e' dt).col.get e = ecs.col.get e := by
  unfold resolve_axis_y
  cases ht : ecs.tr.get e' with
  | none => exact ⟨rfl, rfl, rfl⟩
  | some t =>
    cases hv : ecs.vel.get e' with
    | none => exact ⟨rfl, rfl, rfl⟩
    | some v =>
      cases hc : ecs.col.get e' with
      | none => exact ⟨rfl, rfl, rfl⟩
      | some c =>
        dsimp only
        exact ⟨modify_get_other _ _ _ _ hne, modify_get_other _ _ _ _ hne,
          modify_get_other _ _ _ _ hne⟩

theorem sys_gravity_tr_col (ecs : ECS) (dt : ℚ) :
    (sys_gravity ecs dt).tr = ecs.tr ∧ (sys_gravity ecs dt).col = ecs.col ∧
    (sys_gravity ecs dt).reg = ecs.reg := by
  unfold sys_gravity
  generalize List.range ecs.vel.size = l
  induction l generalizing ecs with
  | nil => exact ⟨rfl, rfl, rfl⟩
  | cons a t ih =>
    rw [List.foldl_cons]
    have hstep : ∀ acc : ECS,
        ((if acc.reg.alive (acc.vel.entity_at a acc.reg) then
            { acc with vel := acc.vel.modify (acc.vel.entity_at a acc.reg) (gravApply dt) }
          else acc) : ECS).tr = acc.tr ∧
        ((if acc.reg.alive (acc.vel.entity_at a acc.reg) then
            { acc with vel := acc.vel.modify (acc.vel.entity_at a acc.reg) (gravApply dt) }
          else acc) : ECS).col = acc.col ∧
        ((if acc.reg.alive (acc.vel.entity_at a acc.reg) then
            { acc with vel := acc.vel.modify (acc.vel.entity_at a acc.reg) (gravApply dt) }
          else acc) : ECS).reg = acc.reg := by
      intro acc
      split <;> exact ⟨rfl, rfl, rfl⟩
    obtain ⟨h1, h2, h3⟩ := ih (if ecs.reg.alive (ecs.vel.entity_at a ecs.reg) then
      { ecs with vel := ecs.vel.modify (ecs.vel.entity_at a ecs.reg) (gravApply dt) } else ecs)
    obtain ⟨s1, s2, s3⟩ := hstep ecs
    exact ⟨h1.trans s1, h2.trans s2, h3.trans s3⟩

theorem sys_gravity_vel_none (ecs : ECS) (dt : ℚ) (e : Entity)
    (h : ecs.vel.get e = none) : (sys_gravity ecs dt).vel.get e = none := by
  unfold sys_gravity
  generalize List.range ecs.vel.size = l
  induction l generalizing ecs with
  | nil => exact h
  | cons a t ih =>
    rw [List.foldl_cons]
    apply ih
    dsimp only
    split
    · exact modify_get_none _ _ _ _ h
    · exact h

/-- One resolution-loop step leaves every component of a malformed entity
    `e` untouched: a row with the same slot index is caught by the skip
    checks, and a row with a different index only writes its own slots. -/
theorem physStep_preserves (tileAt : Int → Int → Nat) (tp : Int) (dt : ℚ)
    (e : Entity) (acc : ECS) (i : Nat)
    (hmiss : acc.tr.get e = none ∨ acc.vel.get e = none ∨ acc.col.get e = none) :
    (physStep tileAt tp dt acc i).tr.get e = acc.tr.get e ∧
    (physStep tileAt tp dt acc i).vel.get e = acc.vel.get e ∧
    (physStep tileAt tp dt acc i).col.get e = acc.col.get e := by
  unfold physStep
  dsimp only
  by_cases halive : acc.reg.alive (acc.col.entity_at i acc.reg)
  · rw [if_pos halive]
    by_cases hck : (acc.tr.get (acc.col.entity_at i acc.reg)).isSome &&
        (acc.vel.get (acc.col.entity_at i acc.reg)).isSome
    · rw [if_pos hck]
      by_cases hidx : ent_idx e = ent_idx (acc.col.entity_at i acc.reg)
      · -- same slot index: the same component is missing for the iterated row
        rcases hmiss with hm | hm | hm
        · rw [get_congr acc.tr e _ hidx] at hm
          rw [hm] at hck
          simp at hck
        · rw [get_congr acc.vel e _ hidx] at hm
          rw [hm] at hck
          simp at hck
        · have hm' : acc.col.get (acc.col.entity_at i acc.reg) = none := by
            rw [← get_congr acc.col e _ hidx]; exact hm
          rw [resolve_x_noop _ _ _ _ _ (Or.inr (Or.inr hm')),
            resolve_y_noop _ _ _ _ _ (Or.inr (Or.inr hm'))]
          exact ⟨rfl, rfl, rfl⟩
      · obtain ⟨hx1, hx2, hx3⟩ := resolve_x_other acc tileAt tp _ dt e hidx
        obtain ⟨hy1, hy2, hy3⟩ :=
          resolve_y_other (resolve_axis_x acc tileAt tp _ dt) tileAt tp _ dt e hidx
        exact ⟨hy1.trans hx1, hy2.trans hx2, hy3.trans hx3⟩
    · rw [if_neg hck]
      exact ⟨rfl, rfl, rfl⟩
  · rw [if_neg halive]
    exact ⟨rfl, rfl, rfl⟩

theorem physFold_preserves (tileAt : Int → Int → Nat) (tp : Int) (dt : ℚ) (e : Entity) :
    ∀ (l : List Nat) (acc : ECS),
    (acc.tr.get e = none ∨ acc.vel.get e = none ∨ acc.col.get e = none) →
    (l.foldl (physStep tileAt tp dt) acc).tr.get e = acc.tr.get e ∧
    (l.foldl (physStep tileAt tp dt) acc).vel.get e = acc.vel.get e ∧
    (l.foldl (physStep tileAt tp dt) acc).col.get e = acc.col.get e := by
  intro l
  induction l with
  | nil => intro acc _; exact ⟨rfl, rfl, rfl⟩
  | cons a t ih =>
    intro acc hmiss
    rw [List.foldl_cons]
    obtain ⟨hs1, hs2, hs3⟩ := physStep_preserves tileAt tp dt e acc a hmiss
    have hmiss' : (physStep tileAt tp dt acc a).tr.get e = none ∨
        (physStep tileAt tp dt acc a).vel.get e = none ∨
        (physStep tileAt tp dt acc a).col.get e = none := by
      rcases hmiss with hm | hm | hm
      · exact Or.inl (hs1.trans hm)
      · exact Or.inr (Or.inl (hs2.trans hm))
      · exact Or.inr (Or.inr (hs3.trans hm))
    obtain ⟨h1, h2, h3⟩ := ih (physStep tileAt tp dt acc a) hmiss'
    exact ⟨h1.trans hs1, h2.trans hs2, h3.trans hs3⟩

/-- **C3** (amended): an entity missing any of Transform, Velocity or
    Collider is skipped by the collision-resolution pass with no error: one
    call to `sys_physics` leaves its Transform and Collider exactly as they
    were, and if it has no Velocity none appears.  (A Velocity it *does*
    have is still changed by the gravity pass — see the counterexample.) -/
theorem malformed_entity_skipped (ecs : ECS) (tileAt : Int → Int → Nat) (tp : Int)
    (dt : ℚ) (e : Entity)
    (hmiss : ecs.tr.get e = none ∨ ecs.vel.get e = none ∨ ecs.col.get e = none) :
    (sys_physics ecs tileAt tp dt).tr.get e = ecs.tr.get e ∧
    (sys_physics ecs tileAt tp dt).col.get e = ecs.col.get e ∧
    (ecs.vel.get e = none → (sys_physics ecs tileAt tp dt).vel.get e = none) := by
  obtain ⟨hg1, hg2, _⟩ := sys_gravity_tr_col ecs dt
  have hmiss1 : (sys_gravity ecs dt).tr.get e = none ∨
      (sys_gravity ecs dt).vel.get e = none ∨
      (sys_gravity ecs dt).col.get e = none := by
    rcases hmiss with hm | hm | hm
    · exact Or.inl (by rw [hg1]; exact hm)
    · exact Or.inr (Or.inl (sys_gravity_vel_none ecs dt e hm))
    · exact Or.inr (Or.inr (by rw [hg2]; exact hm))
  obtain ⟨h1, h2, h3⟩ := physFold_preserves tileAt tp dt e
    (List.range (sys_gravity ecs dt).col.size) (sys_gravity ecs dt) hmiss1
  refine ⟨?_, ?_, ?_⟩
  · show ((List.range (sys_gravity ecs dt).col.size).foldl
      (physStep tileAt tp dt) (sys_gravity ecs dt)).tr.get e = ecs.tr.get e
    rw [h1, hg1]
  · show ((List.range (sys_gravity ecs dt).col.size).foldl
      (physStep tileAt tp dt) (sys_gravity ecs dt)).col.get e = ecs.col.get e
    rw [h3, hg2]
  · intro hv
    show ((List.range (sys_gravity ecs dt).col.size).foldl
      (physStep tileAt tp dt) (sys_gravity ecs dt)).vel.get e = none
    rw [h2]
    exact sys_gravity_vel_none ecs dt e hv

/-- The C3 counterexample entity: slot 0 alive, carrying only a Velocity. -/
def ecsVelOnly : ECS :=
  ⟨⟨[1], []⟩, ⟨[], []⟩, (⟨[], []⟩ : Pool CVel).add 65536 ⟨⟨0, 0⟩⟩, ⟨[], []⟩⟩

set_option maxRecDepth 40000 in
/-- **C3** (counterexample to the claim as stated): an alive entity with a
    Velocity but no Transform and no Collider is *not* left unchanged by
    `sys_physics` — the gravity pass updates its Velocity
    (`v.y : 0 ↦ 1200·dt`), because the gravity loop iterates the velocity
    pool and requires no other component. -/
theorem gravity_hits_malformed :
    (ecsVelOnly.tr.get 65536 = none) ∧
    (ecsVelOnly.col.get 65536 = none) ∧
    (ecsVelOnly.vel.get 65536 = some ⟨⟨0, 0⟩⟩) ∧
    ((sys_physics ecsVelOnly (fun _ _ => 0) 32 1).vel.get 65536 = some ⟨⟨0, 1200⟩⟩) := by
  refine ⟨by decide, by decide, by decide, ?_⟩
  with_unfolding_all decide

theorem malformed_entity_skipped_witness :
    (ecsVelOnly.tr.get 65536 = none ∨ ecsVelOnly.vel.get 65536 = none ∨
      ecsVelOnly.col.get 65536 = none) ∧
    ((sys_physics ecsVelOnly (fun _ _ => 0) 32 1).tr.get 65536 = ecsVelOnly.tr.get 65536 ∧
     (sys_physics ecsVelOnly (fun _ _ => 0) 32 1).col.get 65536 = ecsVelOnly.col.get 65536 ∧
     (ecsVelOnly.vel.get 65536 = none →
       (sys_physics ecsVelOnly (fun _ _ => 0) 32 1).vel.get 65536 = none)) :=
  ⟨Or.inl (by decide),
   malformed_entity_skipped ecsVelOnly (fun _ _ => 0) 32 1 65536 (Or.inl (by decide))⟩

/-! ### C8: the `on_ground` flag of Y-axis resolution -/

/-- The claim's trace predicate, written from the spec's words: along the
    Y-axis scan (state advanced by the code's own `ystep`), some overlapping
    solid tile is processed while the entity is moving downward
    (`v.y > 0` at that moment, i.e. the push-out sets the ground flag). -/
def downHitB (tileAt : Int → Int → Nat) (tp : Int) (posX halfX halfY : ℚ) :
    YS → List (Int × Int) → Bool
  | _, [] => false
  | st, t :: ts =>
    (World.solid (tileAt t.1 t.2) &&
      aabb_overlaps_tile ⟨posX, st.py⟩ ⟨halfX, halfY⟩ tp t.1 t.2 &&
      decide (st.vy > 0)) ||
    downHitB tileAt tp posX halfX halfY (ystep tileAt tp posX halfX halfY st t) ts

theorem ystep_ground (tileAt : Int → Int → Nat) (tp : Int) (posX halfX halfY : ℚ)
    (st : YS) (t : Int × Int) :
    (ystep tileAt tp posX halfX halfY st t).ground =
      (st.ground || (World.solid (tileAt t.1 t.2) &&
        aabb_overlaps_tile ⟨posX, st.py⟩ ⟨halfX, halfY⟩ tp t.1 t.2 &&
        decide (st.vy > 0))) := by
  unfold ystep
  cases hc : (World.solid (tileAt t.1 t.2) &&
      aabb_overlaps_tile ⟨posX, st.py⟩ ⟨halfX, halfY⟩ tp t.1 t.2) with
  | false => simp [hc]
  | true =>
    simp only [hc, if_true, Bool.true_and]
    by_cases hv : st.vy > 0
    · simp [hv]
    · by_cases hv2 : st.vy < 0
      · simp [hv, hv2]
      · simp [hv, hv2]

theorem ground_foldl (tileAt : Int → Int → Nat) (tp : Int) (posX halfX halfY : ℚ) :
    ∀ (tiles : List (Int × Int)) (st : YS),
    (tiles.foldl (ystep tileAt tp posX halfX halfY) st).ground =
      (st.ground || downHitB tileAt tp posX halfX halfY st tiles) := by
  intro tiles
  induction tiles with
  | nil => intro st; simp [downHitB]
  | cons t ts ih =>
    intro st
    rw [List.foldl_cons, ih, downHitB, ystep_ground, Bool.or_assoc]

/-- **C8**: for an entity with all three components, Y-axis resolution stores
    a collider whose `on_ground` equals the trace predicate `downHitB` —
    true iff the scan pushed the entity out of some overlapping solid tile
    while it was moving downward (`v.y > 0` at that step) — and which is
    independent of the incoming `on_ground` value (the flag is reset to
    false at the start of Y resolution); `half` is untouched. -/
theorem on_ground_iff_downward_push (ecs : ECS) (tileAt : Int → Int → Nat) (tp : Int)
    (e : Entity) (dt : ℚ) (t : CTransform) (v : CVel) (c : CCollider)
    (ht : ecs.tr.get e = some t) (hv : ecs.vel.get e = some v)
    (hc : ecs.col.get e = some c) :
    (resolve_axis_y ecs tileAt tp e dt).col.get e =
      some ⟨c.half,
        downHitB tileAt tp t.pos.x c.half.x c.half.y
          ⟨t.pos.y + v.v.y * dt, v.v.y, false⟩
          (scanTiles (floor_div_tile (t.pos.x - c.half.x) tp - 1)
                     (floor_div_tile (t.pos.x + c.half.x) tp + 1)
                     (floor_div_tile (t.pos.y + v.v.y * dt - c.half.y) tp - 1)
                     (floor_div_tile (t.pos.y + v.v.y * dt + c.half.y) tp + 1))⟩ := by
  unfold resolve_axis_y
  rw [ht, hv, hc]
  dsimp only
  rw [modify_get_same, hc]
  rw [ground_foldl]
  rfl

theorem on_ground_iff_downward_push_witness :
    (((⟨⟨[1], []⟩, (⟨[], []⟩ : Pool CTransform).add 65536 ⟨⟨0, 0⟩, 0, ⟨1, 1⟩⟩,
        (⟨[], []⟩ : Pool CVel).add 65536 ⟨⟨0, 10⟩⟩,
        (⟨[], []⟩ : Pool CCollider).add 65536 ⟨⟨14, 20⟩, false⟩⟩ : ECS).tr.get 65536 =
        some ⟨⟨0, 0⟩, 0, ⟨1, 1⟩⟩) ∧
     ((⟨⟨[1], []⟩, (⟨[], []⟩ : Pool CTransform).add 65536 ⟨⟨0, 0⟩, 0, ⟨1, 1⟩⟩,
        (⟨[], []⟩ : Pool CVel).add 65536 ⟨⟨0, 10⟩⟩,
        (⟨[], []⟩ : Pool CCollider).add 65536 ⟨⟨14, 20⟩, false⟩⟩ : ECS).vel.get 65536 =
        some ⟨⟨0, 10⟩⟩) ∧
     ((⟨⟨[1], []⟩, (⟨[], []⟩ : Pool CTransform).add 65536 ⟨⟨0, 0⟩, 0, ⟨1, 1⟩⟩,
        (⟨[], []⟩ : Pool CVel).add 65536 ⟨⟨0, 10⟩⟩,
        (⟨[], []⟩ : Pool CCollider).add 65536 ⟨⟨14, 20⟩, false⟩⟩ : ECS).col.get 65536 =
        some ⟨⟨14, 20⟩, false⟩)) ∧
    (resolve_axis_y
        ⟨⟨[1], []⟩, (⟨[], []⟩ : Pool CTransform).add 65536 ⟨⟨0, 0⟩, 0, ⟨1, 1⟩⟩,
         (⟨[], []⟩ : Pool CVel).add 65536 ⟨⟨0, 10⟩⟩,
         (⟨[], []⟩ : Pool CCollider).add 65536 ⟨⟨14, 20⟩, false⟩⟩
        (fun _ _ => 0) 32 65536 1).col.get 65536 =
      some ⟨⟨14, 20⟩,
        downHitB (fun _ _ => 0) 32 0 14 20 ⟨0 + 10 * 1, 10, false⟩
          (scanTiles (floor_div_tile (0 - 14) 32 - 1)
                     (floor_div_tile (0 + 14) 32 + 1)
                     (floor_div_tile (0 + 10 * 1 - 20) 32 - 1)
                     (floor_div_tile (0 + 10 * 1 + 20) 32 + 1))⟩ :=
  ⟨⟨by decide, by decide, by decide⟩,
   on_ground_iff_downward_push _ (fun _ _ => 0) 32 65536 1 ⟨⟨0, 0⟩, 0, ⟨1, 1⟩⟩ ⟨⟨0, 10⟩⟩
     ⟨⟨14, 20⟩, false⟩ (by decide) (by decide) (by decide)⟩

end WinEng
